import Mathlib

/-!
# Verification of the conversation filtering engine

A shallow embedding, in Lean 4, of the filtering pipeline of the
`sub-agent-continue` MCP server: the conversation event model
(`src/types/index.ts`), the filter configuration and preset resolution
(`src/lib/filter-config.ts`), the two-pass filtering engine and the
statistics collector (`src/lib/filter.ts`), and the "up to nth user
message" selection helper (`src/lib/parser.ts`).

Modelling conventions:
* JavaScript strings are modelled by `String`; `substring`, `length`,
  `trim` and `includes` act on the character list `String.data`.
* Optional / possibly-`undefined` fields are `Option` values; JS
  truthiness of a string is `s ≠ ""`, of a number `n ≠ 0`, of an
  object `true`, of `undefined` `false`.
* The two reasoning-block regexes and the system-reminder regex of the
  source are global non-greedy replaces of `<tag>[\s\S]*?</tag>` by the
  empty string; they are modelled by `removeBlocks`, which repeatedly
  deletes, left to right, the leftmost opening tag together with
  everything up to the closest following closing tag, resuming the scan
  after the deleted block (JavaScript `String.replace` with a `g` regex
  does not rescan the already-produced output).
* `content.customPatterns` entries are applied by the source as JS
  regexes; the embedding models the metacharacter-free (literal)
  fragment of that feature: each pattern is removed as a literal
  substring, globally.  An empty pattern is a no-op, as in JS.
* JS `Map.set`/`Map.get` are modelled by an association list with
  most-recent-binding-first lookup; the `Set` of filtered uuids by a
  list with membership-preserving insertion.
-/

/-! ## Event data model (`src/types/index.ts`) -/

/-- A value of a `tool_use` item's `input` record: either a string
(subject to content rewriting) or any non-string JS value, which the
engine passes through untouched. -/
inductive InputVal where
  | str (s : String)
  | other
deriving DecidableEq, Repr

/-- One element of an array-valued `message.content`
(`MessageContentItem` in `src/lib/filter.ts`). -/
structure MessageContentItem where
  type : String
  text : Option String := none
  content : Option String := none
  name : Option String := none
  id : Option String := none
  input : Option (List (String × InputVal)) := none
  tool_use_id : Option String := none
  is_error : Option Bool := none
deriving DecidableEq, Repr

/-- `MessageContent`: a plain string or an ordered list of typed items. -/
inductive MessageContent where
  | str (s : String)
  | arr (items : List MessageContentItem)
deriving DecidableEq, Repr

structure Message where
  role : String
  content : MessageContent
deriving DecidableEq, Repr

/-- The `toolUseResult` field (typed `unknown` in the source): absent,
a plain string value, or an object, of which only the three fields
inspected by `isSubAgentResponse` are modelled (numeric or absent). -/
inductive ToolUseResultVal where
  | undef
  | plain (s : String)
  | record (totalDurationMs : Option Int) (totalTokens : Option Int)
      (totalToolUseCount : Option Int)
deriving DecidableEq, Repr

/-- `ConversationEntry` of `src/types/index.ts`. -/
structure ConversationEntry where
  parentUuid : Option String
  uuid : String
  timestamp : String
  type : String
  message : Message
  toolUseResult : ToolUseResultVal := .undef
deriving DecidableEq, Repr

/-! ## String machinery: JS `trim`, `includes`, and regex-replace models -/

/-- The whitespace predicate used by the `trim` model. -/
def isWsChar (c : Char) : Bool :=
  c.isWhitespace

/-- Drop leading, then trailing, whitespace of a character list. -/
def trimList (l : List Char) : List Char :=
  ((l.dropWhile isWsChar).reverse.dropWhile isWsChar).reverse

/-- Model of JS `String.prototype.trim`. -/
def jsTrim (s : String) : String :=
  ⟨trimList s.data⟩

/-- `pat` occurs as a contiguous sublist of `l` (JS `includes`). -/
def listContainsSub (pat : List Char) : List Char → Bool
  | [] => pat.isEmpty
  | c :: rest => pat.isPrefixOf (c :: rest) || listContainsSub pat rest

/-- Model of JS `s.includes(pat)`. -/
def containsSubstr (s pat : String) : Bool :=
  listContainsSub pat.data s.data

/-- Scan for the first occurrence of `closeTag`; return what follows it. -/
def dropThroughTag (closeTag : List Char) : List Char → Option (List Char)
  | [] => none
  | c :: rest =>
    if closeTag.isPrefixOf (c :: rest) then
      some ((c :: rest).drop closeTag.length)
    else
      dropThroughTag closeTag rest

/-- One fuelled left-to-right pass deleting every
`openTag …shortest… closeTag` block, the model of a global non-greedy
`replace(/open[\s\S]*?close/g, '')`.  The fuel (always instantiated
with the input length, which bounds the recursion depth for the
non-empty tags of the source) only serves termination. -/
def removeBlocksFuel (openTag closeTag : List Char) : Nat → List Char → List Char
  | 0, l => l
  | _ + 1, [] => []
  | fuel + 1, c :: rest =>
    if openTag.isPrefixOf (c :: rest) then
      match dropThroughTag closeTag ((c :: rest).drop openTag.length) with
      | some rest2 => removeBlocksFuel openTag closeTag fuel rest2
      | none => c :: rest
    else
      c :: removeBlocksFuel openTag closeTag fuel rest

/-- Delete every non-greedy `openTag … closeTag` block of `s`. -/
def removeBlocks (openTag closeTag s : String) : String :=
  ⟨removeBlocksFuel openTag.data closeTag.data s.data.length s.data⟩

/-- Fuelled global removal of a literal pattern (the model of a custom
pattern's `replace(new RegExp(p, 'g'), '')` for metacharacter-free `p`). -/
def removeOccFuel (pat : List Char) : Nat → List Char → List Char
  | 0, l => l
  | _ + 1, [] => []
  | fuel + 1, c :: rest =>
    if pat.isPrefixOf (c :: rest) then
      removeOccFuel pat fuel ((c :: rest).drop pat.length)
    else
      c :: removeOccFuel pat fuel rest

/-- Remove every occurrence of the literal pattern `pat` from `s`; an
empty pattern leaves `s` unchanged, as the empty JS regex does. -/
def removeOcc (pat s : String) : String :=
  if pat = "" then s else ⟨removeOccFuel pat.data s.data.length s.data⟩

/-- JS truthiness of an optional string field. -/
def optStrTruthy : Option String → Bool
  | some s => s != ""
  | none => false

/-- JS truthiness of an optional boolean field. -/
def optBoolTruthy : Option Bool → Bool
  | some b => b
  | none => false

/-- JS truthiness of an optional numeric field. -/
def optIntTruthy : Option Int → Bool
  | some n => n != 0
  | none => false

/-! ## Filter configuration (`src/lib/filter-config.ts`) -/

structure ContentConfig where
  excludeThinking : Bool
  excludeSystemReminders : Bool
  excludeErrors : Bool
  customPatterns : Option (List String) := none
deriving DecidableEq, Repr

structure SubAgentsConfig where
  excludeCalls : Bool
  excludeResponses : Bool
deriving DecidableEq, Repr

structure ToolsConfig where
  excludeCategories : Option (List String) := none
  excludeSpecific : Option (List String) := none
  excludeCallsOnly : Option Bool := none
  excludeResultsOnly : Option Bool := none
  excludeFailed : Option Bool := none
deriving DecidableEq, Repr

structure MessagesConfig where
  excludeEmpty : Option Bool := none
  excludeByRole : Option (List String) := none
  maxLength : Option Int := none
deriving DecidableEq, Repr

structure AdvancedConfig where
  preserveContext : Option Bool := none
  compactMode : Option Bool := none
deriving DecidableEq, Repr

/-- `FilterConfig` of `src/lib/filter-config.ts`. -/
structure FilterConfig where
  content : ContentConfig
  subAgents : SubAgentsConfig
  tools : ToolsConfig
  messages : MessagesConfig
  advanced : AdvancedConfig
deriving DecidableEq, Repr

/-- The `TOOL_CATEGORIES` record: tool name to category name. -/
def TOOL_CATEGORIES : String → Option String
  | "Edit" => some "file_edit"
  | "MultiEdit" => some "file_edit"
  | "Write" => some "file_edit"
  | "NotebookEdit" => some "file_edit"
  | "Read" => some "file_read"
  | "Glob" => some "file_read"
  | "Grep" => some "file_read"
  | "LS" => some "file_read"
  | "Bash" => some "execution"
  | "mcp__ide__executeCode" => some "execution"
  | "WebSearch" => some "web"
  | "WebFetch" => some "web"
  | "Task" => some "analysis"
  | "ExitPlanMode" => some "project"
  | "TodoWrite" => some "project"
  | "mcp__ide__getDiagnostics" => some "mcp"
  | _ => none

/-! Preset configurations.  The preset records of the source have no
`customPatterns`, no tool pairing flags, no `excludeByRole` and no
`maxLength` keys, hence the narrower structures below. -/

structure PresetContentConfig where
  excludeThinking : Bool
  excludeSystemReminders : Bool
  excludeErrors : Bool
deriving DecidableEq, Repr

structure PresetToolsConfig where
  excludeCategories : List String
  excludeSpecific : List String
  excludeFailed : Bool
deriving DecidableEq, Repr

structure PresetMessagesConfig where
  excludeEmpty : Bool
deriving DecidableEq, Repr

structure PresetAdvancedConfig where
  preserveContext : Bool
  compactMode : Bool
deriving DecidableEq, Repr

structure PresetConfig where
  content : PresetContentConfig
  subAgents : SubAgentsConfig
  tools : PresetToolsConfig
  messages : PresetMessagesConfig
  advanced : PresetAdvancedConfig
deriving DecidableEq, Repr

/-- The `none` preset: no filtering. -/
def presetNone : PresetConfig :=
  { content := ⟨false, false, false⟩
    subAgents := ⟨false, false⟩
    tools := ⟨[], [], false⟩
    messages := ⟨false⟩
    advanced := ⟨true, false⟩ }

/-- The `light` preset: strip reasoning only. -/
def presetLight : PresetConfig :=
  { content := ⟨true, false, false⟩
    subAgents := ⟨false, false⟩
    tools := ⟨[], [], false⟩
    messages := ⟨false⟩
    advanced := ⟨true, false⟩ }

/-- The `heavy` preset (default): strip reasoning and sub-agents. -/
def presetHeavy : PresetConfig :=
  { content := ⟨true, false, false⟩
    subAgents := ⟨true, true⟩
    tools := ⟨[], [], false⟩
    messages := ⟨false⟩
    advanced := ⟨true, false⟩ }

/-- The own property names of `Object.prototype`.  `FILTER_PRESETS` is
a plain object literal, so a bracket lookup with one of these keys
finds the member inherited from `Object.prototype`; every one of those
members is truthy (a built-in function, or `Object.prototype` itself
for `__proto__`). -/
def OBJECT_PROTOTYPE_KEYS : List String :=
  ["constructor", "hasOwnProperty", "isPrototypeOf", "propertyIsEnumerable",
   "toLocaleString", "toString", "valueOf", "__proto__",
   "__defineGetter__", "__defineSetter__", "__lookupGetter__", "__lookupSetter__"]

/-- The outcome of the JS bracket lookup `FILTER_PRESETS[name]`: an own
key yields its preset record, a key of `Object.prototype` yields the
inherited truthy non-preset member, and any other key yields
`undefined`. -/
inductive PresetLookup where
  | found (p : PresetConfig)
  | inherited
  | missing
deriving DecidableEq, Repr

/-- Keyed access to `FILTER_PRESETS`, including the prototype chain. -/
def FILTER_PRESETS_get : String → PresetLookup
  | "none" => .found presetNone
  | "light" => .found presetLight
  | "heavy" => .found presetHeavy
  | s => if OBJECT_PROTOTYPE_KEYS.contains s then .inherited else .missing

/-- The process environment, as a map from variable name to value. -/
def Env : Type := String → Option String

/-- `getEnvBoolean` of the source: `undefined` gives the default,
anything else compares against the literal `"true"`. -/
def getEnvBoolean (v : Option String) (defaultValue : Bool) : Bool :=
  match v with
  | none => defaultValue
  | some s => s == "true"

/-- `getEnvStringArray`: `envVar?.split(',')`. -/
def getEnvStringArray (v : Option String) : Option (List String) :=
  v.map (fun s => s.splitOn ",")

/-- Simplified model of `Number.parseInt(s, 10)`; none of the claims
depends on its value, only on whether the variable is set. -/
def jsParseInt (s : String) : Int :=
  s.toInt?.getD 0

/-- The `env ? env !== 'false' : d` idiom of the source ( `""` is falsy). -/
def envFlagOr (v : Option String) (d : Bool) : Bool :=
  match v with
  | some s => if s != "" then s != "false" else d
  | none => d

/-- `buildContentConfig`. -/
def buildContentConfig (env : Env) (preset : PresetConfig) : ContentConfig :=
  { excludeThinking := envFlagOr (env "SUBAGENT_EXCLUDE_THINKING") preset.content.excludeThinking
    excludeSystemReminders :=
      getEnvBoolean (env "SUBAGENT_EXCLUDE_SYSTEM_REMINDERS") preset.content.excludeSystemReminders
    excludeErrors := getEnvBoolean (env "SUBAGENT_EXCLUDE_ERRORS") preset.content.excludeErrors
    customPatterns := getEnvStringArray (env "SUBAGENT_CUSTOM_PATTERNS") }

/-- `buildSubAgentsConfig`. -/
def buildSubAgentsConfig (env : Env) (preset : PresetConfig) : SubAgentsConfig :=
  { excludeCalls := envFlagOr (env "SUBAGENT_EXCLUDE_SUBAGENT_CALLS") preset.subAgents.excludeCalls
    excludeResponses :=
      envFlagOr (env "SUBAGENT_EXCLUDE_SUBAGENT_RESPONSES") preset.subAgents.excludeResponses }

/-- `buildToolsConfig`.  The preset's category/specific arrays are
always present (and truthy in JS, even when empty), so the `|| …`
fallback always yields `some`. -/
def buildToolsConfig (env : Env) (preset : PresetConfig) : ToolsConfig :=
  { excludeCategories :=
      match getEnvStringArray (env "SUBAGENT_EXCLUDE_TOOL_CATEGORIES") with
      | some l => some l
      | none => some preset.tools.excludeCategories
    excludeSpecific :=
      match getEnvStringArray (env "SUBAGENT_EXCLUDE_TOOLS") with
      | some l => some l
      | none => some preset.tools.excludeSpecific
    excludeCallsOnly :=
      some (match env "SUBAGENT_EXCLUDE_TOOL_CALLS_ONLY" with
        | some s => if s != "" then s == "true" else false
        | none => false)
    excludeResultsOnly :=
      some (match env "SUBAGENT_EXCLUDE_TOOL_RESULTS_ONLY" with
        | some s => if s != "" then s == "true" else false
        | none => false)
    excludeFailed :=
      some (getEnvBoolean (env "SUBAGENT_EXCLUDE_FAILED_TOOLS") preset.tools.excludeFailed) }

/-- `buildMessagesConfig`.  No preset carries an `excludeByRole` key,
so its fallback is `undefined`. -/
def buildMessagesConfig (env : Env) (preset : PresetConfig) : MessagesConfig :=
  { excludeEmpty := some (getEnvBoolean (env "SUBAGENT_EXCLUDE_EMPTY") preset.messages.excludeEmpty)
    excludeByRole := getEnvStringArray (env "SUBAGENT_EXCLUDE_ROLES")
    maxLength :=
      match env "SUBAGENT_MAX_MESSAGE_LENGTH" with
      | some s => if s != "" then some (jsParseInt s) else none
      | none => none }

/-- The configuration object literal that `getFilterConfig` returns
once a preset record has been selected. -/
def buildFilterConfig (env : Env) (preset : PresetConfig) : FilterConfig :=
  { content := buildContentConfig env preset
    subAgents := buildSubAgentsConfig env preset
    tools := buildToolsConfig env preset
    messages := buildMessagesConfig env preset
    advanced :=
      { preserveContext :=
          some (envFlagOr (env "SUBAGENT_PRESERVE_CONTEXT") preset.advanced.preserveContext)
        compactMode :=
          some (getEnvBoolean (env "SUBAGENT_COMPACT_MODE") preset.advanced.compactMode) } }

/-- `getFilterConfig(presetName?)`: resolve the preset by JS bracket
lookup with the `|| FILTER_PRESETS.heavy` fallback, then build every
axis from environment plus preset.  A missing key is `undefined`
(falsy), so the fallback fires; but a key inherited from
`Object.prototype` is truthy and bypasses the fallback, and the
builder then dereferences `preset.content` of a non-preset value: the
eagerly evaluated `preset.content.excludeSystemReminders` argument of
`getEnvBoolean` throws a `TypeError`, modelled as `none`. -/
def getFilterConfig (env : Env) (presetName : Option String) : Option FilterConfig :=
  let selectedPreset : String :=
    match presetName with
    | some s => if s != "" then s else "heavy"
    | none => "heavy"
  match FILTER_PRESETS_get selectedPreset with
  | .found p => some (buildFilterConfig env p)
  | .inherited => none
  | .missing => some (buildFilterConfig env presetHeavy)

/-! ## Filter engine (`src/lib/filter.ts`) -/

/-- `truncateIfNeeded`: a falsy (`undefined` or `0`) `maxLength` means
no truncation; a JS `substring(0, m)` clamps a negative `m` to `0`. -/
def truncateIfNeeded (config : FilterConfig) (processed : String) : String :=
  match config.messages.maxLength with
  | none => processed
  | some m =>
    if m = 0 then processed
    else if (processed.data.length : Int) ≤ m then processed
    else ⟨processed.data.take m.toNat⟩ ++ "...[truncated]"

/-- `removeThinkingBlocks`: both marker dialects, in source order. -/
def removeThinkingBlocks (processed : String) (config : FilterConfig) : String :=
  if config.content.excludeThinking then
    removeBlocks "<thinking>" "</thinking>"
      (removeBlocks "<anythingllm:thinking>" "</anythingllm:thinking>" processed)
  else processed

/-- `removeSystemReminders`. -/
def removeSystemReminders (processed : String) (config : FilterConfig) : String :=
  if config.content.excludeSystemReminders then
    removeBlocks "<system-reminder>" "</system-reminder>" processed
  else processed

/-- `applyCustomPatterns` (literal-pattern model; an absent list is
falsy, an empty list loops zero times). -/
def applyCustomPatterns (processed : String) (config : FilterConfig) : String :=
  match config.content.customPatterns with
  | none => processed
  | some patterns => patterns.foldl (fun acc p => removeOcc p acc) processed

/-- The `processString` closure of `filterContentPatterns`: strip
thinking blocks, system reminders and custom patterns, truncate, trim. -/
def processString (config : FilterConfig) (str : String) : String :=
  jsTrim (truncateIfNeeded config
    (applyCustomPatterns (removeSystemReminders (removeThinkingBlocks str config) config) config))

/-- `processContentItem`: rewrite the string payloads of one item.  The
first branch fires only for a truthy (non-empty) `text`. -/
def processContentItem (item : MessageContentItem) (f : String → String) : MessageContentItem :=
  if optStrTruthy item.text then
    { item with text := item.text.map f }
  else if item.type == "tool_use" && item.input.isSome then
    { item with
        input := item.input.map (List.map (fun kv =>
          match kv.2 with
          | .str v => (kv.1, InputVal.str (f v))
          | .other => kv)) }
  else if item.type == "tool_result" && item.content.isSome then
    { item with content := item.content.map f }
  else item

/-- `shouldKeepContentItem`: the item-level emptiness check. -/
def shouldKeepContentItem (item : MessageContentItem) (config : FilterConfig) : Bool :=
  if !optBoolTruthy config.messages.excludeEmpty then
    true
  else
    match item.text with
    | some t => if t != "" then decide (0 < t.length) else true
    | none => true

/-- `processArrayContent`. -/
def processArrayContent (content : List MessageContentItem) (f : String → String)
    (config : FilterConfig) : List MessageContentItem :=
  (content.map (fun item => processContentItem item f)).filter
    (fun item => shouldKeepContentItem item config)

/-- `filterContentPatterns`: the `if (!content) return content` early
return fires exactly for the empty string. -/
def filterContentPatterns (content : MessageContent) (config : FilterConfig) : MessageContent :=
  match content with
  | .str s => if s == "" then .str s else .str (processString config s)
  | .arr items => .arr (processArrayContent items (processString config) config)

/-- `isToolCall(entry, toolName?)`. -/
def isToolCall (entry : ConversationEntry) (toolName : Option String) : Bool :=
  if entry.type != "assistant" then false
  else
    match entry.message.content with
    | .arr items =>
      items.any (fun item =>
        if item.type == "tool_use" then
          match toolName with
          | some n => item.name == some n
          | none => true
        else false)
    | .str _ => false

/-- `getToolName`: the first `tool_use` item with a truthy name. -/
def findToolName : List MessageContentItem → Option String
  | [] => none
  | item :: rest =>
    if item.type == "tool_use" && optStrTruthy item.name then item.name
    else findToolName rest

def getToolName (entry : ConversationEntry) : Option String :=
  if entry.type != "assistant" then none
  else
    match entry.message.content with
    | .arr items => findToolName items
    | .str _ => none

/-- `isToolResult`. -/
def isToolResult (entry : ConversationEntry) : Bool :=
  if entry.type != "user" then false
  else
    match entry.message.content with
    | .arr items => items.any (fun item => item.type == "tool_result")
    | .str _ => false

/-- `isFailedToolResult`: an error flag or interrupted-request text. -/
def isFailedToolResult (entry : ConversationEntry) : Bool :=
  if !isToolResult entry then false
  else
    match entry.message.content with
    | .arr items =>
      items.any (fun item =>
        if item.type == "tool_result" then
          (item.is_error == some true) ||
            (match item.content with
             | some c => containsSubstr c "[Request interrupted"
             | none => false)
        else false)
    | .str _ => false

/-- `isSubAgentCall`. -/
def isSubAgentCall (entry : ConversationEntry) : Bool :=
  isToolCall entry (some "Task")

/-- JS truthiness of the `toolUseResult` field. -/
def toolUseResultTruthy : ToolUseResultVal → Bool
  | .undef => false
  | .plain s => s != ""
  | .record _ _ _ => true

/-- `isSubAgentResponse`: a user entry whose `toolUseResult` is truthy
and, read as an object, has truthy `totalDurationMs`, truthy
`totalTokens` and a numeric `totalToolUseCount`; on a non-object value
the three accesses yield `undefined`, so the check fails. -/
def isSubAgentResponse (entry : ConversationEntry) : Bool :=
  if entry.type != "user" then false
  else if toolUseResultTruthy entry.toolUseResult then
    match entry.toolUseResult with
    | .record d t c => optIntTruthy d && optIntTruthy t && c.isSome
    | _ => false
  else false

/-- `shouldFilterTool`. -/
def shouldFilterTool (toolName : String) (config : FilterConfig) : Bool :=
  if (match config.tools.excludeSpecific with
      | some l => l.contains toolName
      | none => false) then
    true
  else if (match config.tools.excludeCategories with
      | some l => !l.isEmpty
      | none => false) then
    match TOOL_CATEGORIES toolName with
    | some category => (config.tools.excludeCategories.getD []).contains category
    | none => false
  else false

/-! The first pass of `filterConversation` threads a map from tool-call
uuid to tool name and the set of uuids marked for exclusion. -/

structure Pass1State where
  toolCallMap : List (String × String)
  filteredUuids : List String
deriving DecidableEq, Repr

/-- `Set.add`. -/
def setAdd (u : String) (l : List String) : List String :=
  if l.contains u then l else u :: l

/-- `processSubAgentFiltering`. -/
def processSubAgentFiltering (entry : ConversationEntry) (filterConfig : FilterConfig)
    (st : Pass1State) : Pass1State :=
  let st :=
    if filterConfig.subAgents.excludeCalls && isSubAgentCall entry then
      { st with filteredUuids := setAdd entry.uuid st.filteredUuids }
    else st
  if filterConfig.subAgents.excludeResponses && isSubAgentResponse entry then
    { st with filteredUuids := setAdd entry.uuid st.filteredUuids }
  else st

/-- `processToolCallFiltering`: record the call in the map, then mark it
unless only results are excluded. -/
def processToolCallFiltering (entry : ConversationEntry) (filterConfig : FilterConfig)
    (st : Pass1State) : Pass1State :=
  if !isToolCall entry none then st
  else
    match getToolName entry with
    | none => st
    | some toolName =>
      let st := { st with toolCallMap := (entry.uuid, toolName) :: st.toolCallMap }
      if shouldFilterTool toolName filterConfig &&
          !optBoolTruthy filterConfig.tools.excludeResultsOnly then
        { st with filteredUuids := setAdd entry.uuid st.filteredUuids }
      else st

/-- The pairing condition of `processToolResultFiltering`: the
immediately preceding entry is a recorded tool call whose (truthy) tool
name is excluded, and calls-only mode is off. -/
def pairingHit (toolCallMap : List (String × String)) (prevEntry : Option ConversationEntry)
    (filterConfig : FilterConfig) : Bool :=
  match prevEntry with
  | none => false
  | some prev =>
    match toolCallMap.lookup prev.uuid with
    | none => false
    | some toolName =>
      toolName != "" && shouldFilterTool toolName filterConfig &&
        !optBoolTruthy filterConfig.tools.excludeCallsOnly

/-- `processToolResultFiltering`: pair with the immediately preceding
entry via the map, then the independent failed-result check. -/
def processToolResultFiltering (entry : ConversationEntry) (prevEntry : Option ConversationEntry)
    (filterConfig : FilterConfig) (st : Pass1State) : Pass1State :=
  if !isToolResult entry then st
  else
    let st :=
      if pairingHit st.toolCallMap prevEntry filterConfig then
        { st with filteredUuids := setAdd entry.uuid st.filteredUuids }
      else st
    if optBoolTruthy filterConfig.tools.excludeFailed && isFailedToolResult entry then
      { st with filteredUuids := setAdd entry.uuid st.filteredUuids }
    else st

/-- The `excludeByRole?.includes(entry.type)` condition. -/
def excludeByRoleHit (filterConfig : FilterConfig) (entry : ConversationEntry) : Bool :=
  match filterConfig.messages.excludeByRole with
  | some l => l.contains entry.type
  | none => false

/-- `processRoleFiltering`. -/
def processRoleFiltering (entry : ConversationEntry) (filterConfig : FilterConfig)
    (st : Pass1State) : Pass1State :=
  if excludeByRoleHit filterConfig entry then
    { st with filteredUuids := setAdd entry.uuid st.filteredUuids }
  else st

/-- One iteration of the first-pass loop body, in source order. -/
def pass1Entry (filterConfig : FilterConfig) (prevEntry : Option ConversationEntry)
    (entry : ConversationEntry) (st : Pass1State) : Pass1State :=
  processRoleFiltering entry filterConfig
    (processToolResultFiltering entry prevEntry filterConfig
      (processToolCallFiltering entry filterConfig
        (processSubAgentFiltering entry filterConfig st)))

/-- The first-pass loop: `prevEntry` is `entries[index - 1]`. -/
def pass1Aux (filterConfig : FilterConfig) (prevEntry : Option ConversationEntry) :
    List ConversationEntry → Pass1State → Pass1State
  | [], st => st
  | e :: rest, st => pass1Aux filterConfig (some e) rest (pass1Entry filterConfig prevEntry e st)

/-- The set of uuids marked for exclusion by the first pass. -/
def pass1 (entries : List ConversationEntry) (filterConfig : FilterConfig) : List String :=
  (pass1Aux filterConfig none entries ⟨[], []⟩).filteredUuids

/-- The second-pass body applied to one surviving entry: rewrite the
content, then drop the entry when `excludeEmpty` is set and the
rewritten content is an empty string or an empty array. -/
def pass2Entry (filterConfig : FilterConfig) (entry : ConversationEntry) :
    Option ConversationEntry :=
  let filteredContent := filterContentPatterns entry.message.content filterConfig
  if optBoolTruthy filterConfig.messages.excludeEmpty &&
      (match filteredContent with
       | .str s => s == ""
       | .arr items => items.isEmpty) then
    none
  else
    some { entry with message := { entry.message with content := filteredContent } }

/-- `filterConversation(entries, config)`: mark, then filter, rewrite
and drop. -/
def filterConversation (entries : List ConversationEntry) (filterConfig : FilterConfig) :
    List ConversationEntry :=
  let filteredUuids := pass1 entries filterConfig
  (((entries.filter (fun e => !filteredUuids.contains e.uuid)).map
    (fun e => pass2Entry filterConfig e)).filterMap id)

/-! ## Selection helper (`src/lib/parser.ts`) -/

/-- The counting loop of `getUpToUserMessage`. -/
def getUpToUserAux (userMessageIndex : Int) :
    List ConversationEntry → Int → List ConversationEntry
  | [], _ => []
  | e :: rest, count =>
    if e.type == "user" then
      if count + 1 ≥ userMessageIndex then []
      else e :: getUpToUserAux userMessageIndex rest (count + 1)
    else
      e :: getUpToUserAux userMessageIndex rest count

/-- `getUpToUserMessage(entries, userMessageIndex)`: everything strictly
before the nth user-typed entry. -/
def getUpToUserMessage (entries : List ConversationEntry) (userMessageIndex : Int) :
    List ConversationEntry :=
  if userMessageIndex ≤ 0 then [] else getUpToUserAux userMessageIndex entries 0

/-! ## Statistics collector (`getFilterStatistics` in `src/lib/filter.ts`) -/

/-- JSON string escaping (the escapes relevant to the modelled data). -/
def jsonEscapeChar (c : Char) : List Char :=
  if c = '"' then ['\\', '"']
  else if c = '\\' then ['\\', '\\']
  else if c = '\n' then ['\\', 'n']
  else if c = '\r' then ['\\', 'r']
  else if c = '\t' then ['\\', 't']
  else [c]

/-- `JSON.stringify` of a string value. -/
def jsonString (s : String) : String :=
  ⟨'"' :: (s.data.flatMap jsonEscapeChar ++ ['"'])⟩

/-- Serialize one optional string field of a content item. -/
def jsonOptStrField (k : String) (v : Option String) : List String :=
  match v with
  | some s => [jsonString k ++ ":" ++ jsonString s]
  | none => []

/-- Serialize a `tool_use` input value (`other` stands for an arbitrary
non-string JSON value; its serialization never contains `thinking>`). -/
def jsonInputVal : InputVal → String
  | .str s => jsonString s
  | .other => "null"

/-- `JSON.stringify` of one content item: the present fields, in the
field order of the model, `undefined` fields omitted. -/
def jsonItem (item : MessageContentItem) : String :=
  let fields : List String :=
    [jsonString "type" ++ ":" ++ jsonString item.type] ++
    jsonOptStrField "text" item.text ++
    jsonOptStrField "content" item.content ++
    jsonOptStrField "name" item.name ++
    jsonOptStrField "id" item.id ++
    (match item.input with
     | some kvs =>
       ["\"input\":\x7b" ++
         String.intercalate "," (kvs.map (fun kv => jsonString kv.1 ++ ":" ++ jsonInputVal kv.2)) ++
         "\x7d"]
     | none => []) ++
    jsonOptStrField "tool_use_id" item.tool_use_id ++
    (match item.is_error with
     | some b => [jsonString "is_error" ++ ":" ++ (if b then "true" else "false")]
     | none => [])
  "\x7b" ++ String.intercalate "," fields ++ "\x7d"

/-- `JSON.stringify(entry.message.content)`. -/
def jsonStringifyContent : MessageContent → String
  | .str s => jsonString s
  | .arr items => "[" ++ String.intercalate "," (items.map jsonItem) ++ "]"

structure ByCategory where
  thinking : Nat
  subAgentCalls : Nat
  subAgentResponses : Nat
  tools : Nat
  failed : Nat
deriving DecidableEq, Repr

structure FilterStats where
  total : Nat
  filtered : Nat
  byCategory : ByCategory
  tokensSaved : Int
deriving DecidableEq, Repr

/-- `updateThinkingStats`: count entries whose stringified content
contains a thinking marker, when thinking stripping is on. -/
def updateThinkingStats (entry : ConversationEntry) (filterConfig : FilterConfig)
    (stats : FilterStats) : FilterStats :=
  if !filterConfig.content.excludeThinking then stats
  else if containsSubstr (jsonStringifyContent entry.message.content) "thinking>" then
    { stats with
        byCategory := { stats.byCategory with thinking := stats.byCategory.thinking + 1 }
        tokensSaved := stats.tokensSaved + 100 }
  else stats

/-- `result?.totalTokens || 5000` for a sub-agent response entry. -/
def subAgentTokens : ToolUseResultVal → Int
  | .record _ (some t) _ => if t != 0 then t else 5000
  | _ => 5000

/-- `updateSubAgentStats`. -/
def updateSubAgentStats (entry : ConversationEntry) (filterConfig : FilterConfig)
    (stats : FilterStats) : FilterStats :=
  let stats :=
    if isSubAgentCall entry && filterConfig.subAgents.excludeCalls then
      { stats with
          byCategory :=
            { stats.byCategory with subAgentCalls := stats.byCategory.subAgentCalls + 1 }
          tokensSaved := stats.tokensSaved + 150 }
    else stats
  if isSubAgentResponse entry && filterConfig.subAgents.excludeResponses then
    { stats with
        byCategory :=
          { stats.byCategory with subAgentResponses := stats.byCategory.subAgentResponses + 1 }
        tokensSaved := stats.tokensSaved + subAgentTokens entry.toolUseResult }
  else stats

/-- `updateToolStats`. -/
def updateToolStats (entry : ConversationEntry) (filterConfig : FilterConfig)
    (stats : FilterStats) : FilterStats :=
  if !isToolCall entry none then stats
  else
    match getToolName entry with
    | some toolName =>
      if toolName != "" && shouldFilterTool toolName filterConfig then
        { stats with
            byCategory := { stats.byCategory with tools := stats.byCategory.tools + 1 }
            tokensSaved := stats.tokensSaved + 200 }
      else stats
    | none => stats

/-- `updateFailedToolStats`. -/
def updateFailedToolStats (entry : ConversationEntry) (filterConfig : FilterConfig)
    (stats : FilterStats) : FilterStats :=
  if isFailedToolResult entry && optBoolTruthy filterConfig.tools.excludeFailed then
    { stats with
        byCategory := { stats.byCategory with failed := stats.byCategory.failed + 1 }
        tokensSaved := stats.tokensSaved + 50 }
  else stats

/-- The statistics loop body, in source order. -/
def updateStatsEntry (filterConfig : FilterConfig) (stats : FilterStats)
    (entry : ConversationEntry) : FilterStats :=
  updateFailedToolStats entry filterConfig
    (updateToolStats entry filterConfig
      (updateSubAgentStats entry filterConfig
        (updateThinkingStats entry filterConfig stats)))

/-- `getFilterStatistics(entries, config)`. -/
def getFilterStatistics (entries : List ConversationEntry) (filterConfig : FilterConfig) :
    FilterStats :=
  let filtered := filterConversation entries filterConfig
  let stats0 : FilterStats :=
    { total := entries.length
      filtered := entries.length - filtered.length
      byCategory := ⟨0, 0, 0, 0, 0⟩
      tokensSaved := 0 }
  entries.foldl (updateStatsEntry filterConfig) stats0

/-! ## Derived predicates used by the verification -/

/-- The marking condition of `processToolCallFiltering` for one entry. -/
def toolCallMarkHit (filterConfig : FilterConfig) (entry : ConversationEntry) : Bool :=
  isToolCall entry none &&
    (match getToolName entry with
     | some t => shouldFilterTool t filterConfig && !optBoolTruthy filterConfig.tools.excludeResultsOnly
     | none => false)

/-- The marking condition of `processToolResultFiltering` for one entry
(given the map state and previous entry at that step). -/
def toolResultMarkHit (filterConfig : FilterConfig) (toolCallMap : List (String × String))
    (prevEntry : Option ConversationEntry) (entry : ConversationEntry) : Bool :=
  isToolResult entry &&
    (pairingHit toolCallMap prevEntry filterConfig ||
      (optBoolTruthy filterConfig.tools.excludeFailed && isFailedToolResult entry))

/-- The complete condition under which one first-pass iteration marks
its own entry (`prevEntry` and `toolCallMap` being the step's state). -/
def markCond (filterConfig : FilterConfig) (toolCallMap : List (String × String))
    (prevEntry : Option ConversationEntry) (entry : ConversationEntry) : Bool :=
  (filterConfig.subAgents.excludeCalls && isSubAgentCall entry) ||
  (filterConfig.subAgents.excludeResponses && isSubAgentResponse entry) ||
  toolCallMarkHit filterConfig entry ||
  toolResultMarkHit filterConfig toolCallMap prevEntry entry ||
  excludeByRoleHit filterConfig entry

/-- The pointwise (state-independent) marking condition, which
coincides with `markCond` whenever no tool name is excluded. -/
def entryMarkP (filterConfig : FilterConfig) (entry : ConversationEntry) : Bool :=
  (filterConfig.subAgents.excludeCalls && isSubAgentCall entry) ||
  (filterConfig.subAgents.excludeResponses && isSubAgentResponse entry) ||
  (optBoolTruthy filterConfig.tools.excludeFailed && isFailedToolResult entry) ||
  excludeByRoleHit filterConfig entry

/-- The structured sub-agent-outcome shape: an object whose
`totalDurationMs` and `totalTokens` are present and truthy (non-zero)
and whose `totalToolUseCount` is present. -/
def subAgentShape : ToolUseResultVal → Bool
  | .record (some d) (some t) (some _) => d != 0 && t != 0
  | _ => false

/-- The previous-entry value after processing a block `l` that started
with previous entry `prev`. -/
def lastOrPrev (prev : Option ConversationEntry) (l : List ConversationEntry) :
    Option ConversationEntry :=
  match l.getLast? with
  | some e => some e
  | none => prev

/-- Per-category counting conditions of the statistics walk. -/
def thinkingStatHit (filterConfig : FilterConfig) (entry : ConversationEntry) : Bool :=
  filterConfig.content.excludeThinking &&
    containsSubstr (jsonStringifyContent entry.message.content) "thinking>"

def subAgentCallStatHit (filterConfig : FilterConfig) (entry : ConversationEntry) : Bool :=
  isSubAgentCall entry && filterConfig.subAgents.excludeCalls

def subAgentResponseStatHit (filterConfig : FilterConfig) (entry : ConversationEntry) : Bool :=
  isSubAgentResponse entry && filterConfig.subAgents.excludeResponses

def toolStatHit (filterConfig : FilterConfig) (entry : ConversationEntry) : Bool :=
  isToolCall entry none &&
    (match getToolName entry with
     | some t => t != "" && shouldFilterTool t filterConfig
     | none => false)

def failedStatHit (filterConfig : FilterConfig) (entry : ConversationEntry) : Bool :=
  isFailedToolResult entry && optBoolTruthy filterConfig.tools.excludeFailed

/-- An item is trim-safe when a non-empty `text` that trims to the
empty string cannot re-route it into the `tool_use`/`tool_result`
rewriting branches on a second pass. -/
def itemTrimSafe (item : MessageContentItem) : Bool :=
  match item.text with
  | some t =>
    if t != "" && jsTrim t == "" then
      !(item.type == "tool_use" && item.input.isSome) &&
        !(item.type == "tool_result" && item.content.isSome)
    else true
  | none => true

/-- All array-content items of the entry are trim-safe. -/
def entryTrimSafe (entry : ConversationEntry) : Bool :=
  match entry.message.content with
  | .str _ => true
  | .arr items => items.all itemTrimSafe

/-! ## Concrete fixtures used by witnesses and counterexamples -/

/-- A configuration with every filtering axis off. -/
def cfgBase : FilterConfig :=
  { content := ⟨false, false, false, none⟩
    subAgents := ⟨false, false⟩
    tools := {}
    messages := {}
    advanced := {} }

/-- `cfgBase` with thinking stripping on. -/
def cfgThinking : FilterConfig :=
  { cfgBase with content := ⟨true, false, false, none⟩ }

/-- `cfgThinking` with `excludeEmpty` set. -/
def cfgThinkingEmpty : FilterConfig :=
  { cfgThinking with messages := { excludeEmpty := some true } }

/-- `cfgBase` with `maxLength` 5. -/
def cfgMax5 : FilterConfig :=
  { cfgBase with messages := { maxLength := some 5 } }

/-- `cfgBase` excluding sub-agent responses only. -/
def cfgResponses : FilterConfig :=
  { cfgBase with subAgents := ⟨false, true⟩ }

/-- `cfgBase` excluding the tool name `Edit`. -/
def cfgEditTool : FilterConfig :=
  { cfgBase with tools := { excludeSpecific := some ["Edit"] } }

/-- Entry construction helper for concrete instances. -/
def mkEntry (u ty : String) (c : MessageContent) : ConversationEntry :=
  { parentUuid := none, uuid := u, timestamp := "2024-01-01T00:00:00Z", type := ty
    message := { role := ty, content := c } }

/-- An assistant entry invoking the tool `Edit`. -/
def editCallEntry : ConversationEntry :=
  mkEntry "c1" "assistant"
    (.arr [{ type := "tool_use", name := some "Edit", id := some "toolu1"
             input := some [("file_path", .str "/tmp/x")] }])

/-- A user entry carrying a tool result. -/
def editResultEntry : ConversationEntry :=
  mkEntry "r1" "user"
    (.arr [{ type := "tool_result", content := some "ok", tool_use_id := some "toolu1" }])

/-! ## Helper lemmas: membership, trimming, substrings -/

theorem contains_iff_mem (l : List String) (u : String) : l.contains u = true ↔ u ∈ l := by
  show l.elem u = true ↔ u ∈ l
  exact List.elem_iff

theorem setAdd_mem (u v : String) (l : List String) : u ∈ setAdd v l ↔ u = v ∨ u ∈ l := by
  unfold setAdd
  by_cases h : l.contains v = true
  · have hv := (contains_iff_mem l v).mp h
    rw [if_pos h]
    constructor
    · exact Or.inr
    · rintro (rfl | hu)
      · exact hv
      · exact hu
  · rw [if_neg h]
    simp [List.mem_cons]

theorem dropWhile_head_false {p : Char → Bool} :
    ∀ {l : List Char} {c : Char} {t : List Char}, List.dropWhile p l = c :: t → p c = false := by
  intro l
  induction l with
  | nil => intro c t h; simp at h
  | cons a r ih =>
    intro c t h
    rw [List.dropWhile_cons] at h
    split at h
    · exact ih h
    · next ha =>
      cases h
      simpa using ha

theorem dropWhile_self_of_head_false {p : Char → Bool} {c : Char} {t : List Char}
    (h : p c = false) : List.dropWhile p (c :: t) = c :: t := by
  rw [List.dropWhile_cons]
  simp [h]

theorem dropWhile_dropWhile {p : Char → Bool} (l : List Char) :
    List.dropWhile p (List.dropWhile p l) = List.dropWhile p l := by
  cases h : List.dropWhile p l with
  | nil => simp
  | cons c t => exact dropWhile_self_of_head_false (dropWhile_head_false h)

theorem dropWhile_fix_head_false {p : Char → Bool} {c : Char} {t : List Char}
    (h1 : List.dropWhile p (c :: t) = c :: t) : p c = false := by
  by_contra hc
  have hc' : p c = true := by simpa using hc
  rw [List.dropWhile_cons, if_pos hc'] at h1
  have hlen := congrArg List.length h1
  have hle := (List.dropWhile_suffix (l := t) p).length_le
  simp [List.length_cons] at hlen
  omega

theorem trimList_prefix_dropWhile (l : List Char) : trimList l <+: List.dropWhile isWsChar l := by
  have h := List.dropWhile_suffix (l := (List.dropWhile isWsChar l).reverse) isWsChar
  rw [← List.reverse_suffix]
  simpa [trimList] using h

theorem trimList_within (l : List Char) : trimList l <:+: l :=
  (trimList_prefix_dropWhile l).isInfix.trans (List.dropWhile_suffix isWsChar).isInfix

theorem trimList_idem (l : List Char) : trimList (trimList l) = trimList l := by
  have h1 : List.dropWhile isWsChar (trimList l) = trimList l := by
    cases h : trimList l with
    | nil => simp
    | cons c t =>
      apply dropWhile_self_of_head_false
      have hp := trimList_prefix_dropWhile l
      rw [h] at hp
      obtain ⟨r, hr⟩ := hp
      exact dropWhile_head_false (p := isWsChar) hr.symm
  have h2 : List.dropWhile isWsChar (trimList l).reverse = (trimList l).reverse := by
    have hrr : (trimList l).reverse =
        List.dropWhile isWsChar (List.dropWhile isWsChar l).reverse := by
      show ((List.dropWhile isWsChar (List.dropWhile isWsChar l).reverse).reverse).reverse = _
      rw [List.reverse_reverse]
    rw [hrr]
    exact dropWhile_dropWhile _
  show ((List.dropWhile isWsChar (trimList l)).reverse.dropWhile isWsChar).reverse = trimList l
  rw [h1, h2, List.reverse_reverse]

theorem jsTrim_idem (s : String) : jsTrim (jsTrim s) = jsTrim s := by
  apply String.ext
  show trimList (trimList s.data) = trimList s.data
  exact trimList_idem _

theorem dropWhile_eq_self_of_trimList_eq {l : List Char} (h : trimList l = l) :
    List.dropWhile isWsChar l = l := by
  have hp := trimList_prefix_dropWhile l
  rw [h] at hp
  have hs : List.dropWhile isWsChar l <:+ l := List.dropWhile_suffix isWsChar
  exact hs.eq_of_length (Nat.le_antisymm hs.length_le hp.length_le)

theorem reverse_dropWhile_eq_self_of_trimList_eq {l : List Char} (h : trimList l = l) :
    List.dropWhile isWsChar l.reverse = l.reverse := by
  have h1 := dropWhile_eq_self_of_trimList_eq h
  have h2 : trimList l = (List.dropWhile isWsChar l.reverse).reverse := by
    show ((List.dropWhile isWsChar l).reverse.dropWhile isWsChar).reverse = _
    rw [h1]
  have h3 : (List.dropWhile isWsChar l.reverse).reverse = l := (h2.symm.trans h)
  have h4 := congrArg List.reverse h3
  rw [List.reverse_reverse] at h4
  exact h4

theorem trimList_eq_self_of_ends {l : List Char}
    (h1 : ∀ c t, l = c :: t → isWsChar c = false)
    (h2 : ∀ c, l.getLast? = some c → isWsChar c = false) : trimList l = l := by
  cases l with
  | nil => rfl
  | cons a t =>
    have ha := h1 a t rfl
    have hdw : List.dropWhile isWsChar (a :: t) = a :: t := dropWhile_self_of_head_false ha
    show ((List.dropWhile isWsChar (a :: t)).reverse.dropWhile isWsChar).reverse = a :: t
    rw [hdw]
    cases hrev : (a :: t).reverse with
    | nil => exact absurd (congrArg List.length hrev) (by simp)
    | cons c u =>
      have hc : ((a :: t) : List Char).getLast? = some c := by
        rw [← List.head?_reverse, hrev]
        rfl
      rw [dropWhile_self_of_head_false (h2 c hc), ← hrev, List.reverse_reverse]

theorem head_not_ws_of_trim_eq {s : String} (h : jsTrim s = s) {c : Char} {t : List Char}
    (hd : s.data = c :: t) : isWsChar c = false := by
  have hl : trimList s.data = s.data := congrArg String.data h
  have h1 := dropWhile_eq_self_of_trimList_eq hl
  rw [hd] at h1
  exact dropWhile_fix_head_false h1

theorem getLast_not_ws_of_trim_eq {s : String} (h : jsTrim s = s) {c : Char}
    (hd : s.data.getLast? = some c) : isWsChar c = false := by
  have hl : trimList s.data = s.data := congrArg String.data h
  have h1 := reverse_dropWhile_eq_self_of_trimList_eq hl
  have hh : s.data.reverse.head? = some c := by rw [List.head?_reverse]; exact hd
  cases hrev : s.data.reverse with
  | nil => rw [hrev] at hh; cases hh
  | cons a t =>
    rw [hrev] at hh h1
    have : a = c := by simpa using hh
    subst this
    exact dropWhile_fix_head_false h1

theorem listContainsSub_iff {pat : List Char} :
    ∀ {l : List Char}, listContainsSub pat l = true ↔ pat <:+: l := by
  intro l
  induction l with
  | nil =>
    simp only [listContainsSub, List.isEmpty_iff]
    constructor
    · rintro rfl; exact List.infix_rfl
    · intro h; exact List.sublist_nil.mp h.sublist
  | cons c rest ih =>
    simp [listContainsSub, List.infix_cons_iff, ih, List.isPrefixOf_iff_prefix]

theorem containsSubstr_of_trim {s pat : String}
    (h : containsSubstr (jsTrim s) pat = true) : containsSubstr s pat = true := by
  rw [containsSubstr, listContainsSub_iff] at h ⊢
  exact h.trans (trimList_within s.data)

/-! ## Helper lemmas: second pass and output membership -/

theorem filterMapFilter {α β : Type} (q : α → Bool) (g : α → Option β) (l : List α) :
    ((l.filter fun a => !q a).map g).filterMap id =
      l.filterMap (fun a => if q a then none else g a) := by
  induction l with
  | nil => rfl
  | cons a t ih =>
    cases h : q a with
    | false =>
      have hp : (!q a) = true := by rw [h]; rfl
      rw [List.filter_cons, if_pos hp, List.map_cons, List.filterMap_cons, List.filterMap_cons, h]
      cases g a <;> simp [ih]
    | true =>
      have hp : (!q a) = false := by rw [h]; rfl
      rw [List.filter_cons, hp, if_neg (by simp), List.filterMap_cons, h]
      simp [ih]

theorem filterConversation_eq_filterMap (entries : List ConversationEntry) (cfg : FilterConfig) :
    filterConversation entries cfg =
      entries.filterMap (fun e =>
        if (pass1 entries cfg).contains e.uuid then none else pass2Entry cfg e) := by
  show (((entries.filter fun e => !(pass1 entries cfg).contains e.uuid).map
      (fun e => pass2Entry cfg e)).filterMap id) = _
  exact filterMapFilter (fun e => (pass1 entries cfg).contains e.uuid)
    (fun e => pass2Entry cfg e) entries

theorem pass2Entry_some {cfg : FilterConfig} {e e' : ConversationEntry}
    (h : pass2Entry cfg e = some e') :
    e' = { e with message :=
      { e.message with content := filterContentPatterns e.message.content cfg } } := by
  simp only [pass2Entry] at h
  split at h
  · cases h
  · exact (Option.some.inj h).symm

theorem pass2Entry_fields {cfg : FilterConfig} {e e' : ConversationEntry}
    (h : pass2Entry cfg e = some e') :
    e'.uuid = e.uuid ∧ e'.parentUuid = e.parentUuid ∧ e'.timestamp = e.timestamp ∧
      e'.type = e.type ∧ e'.message.role = e.message.role ∧
      e'.toolUseResult = e.toolUseResult := by
  obtain rfl := pass2Entry_some h
  exact ⟨rfl, rfl, rfl, rfl, rfl, rfl⟩

theorem mem_filterConversation {entries : List ConversationEntry} {cfg : FilterConfig}
    {e' : ConversationEntry} (h : e' ∈ filterConversation entries cfg) :
    ∃ e ∈ entries, (pass1 entries cfg).contains e.uuid = false ∧ pass2Entry cfg e = some e' := by
  rw [filterConversation_eq_filterMap] at h
  obtain ⟨e, he, hef⟩ := List.mem_filterMap.mp h
  by_cases hc : (pass1 entries cfg).contains e.uuid = true
  · rw [if_pos hc] at hef; cases hef
  · rw [if_neg hc] at hef
    exact ⟨e, he, by simpa using hc, hef⟩

theorem filterConversation_mem_of {entries : List ConversationEntry} {cfg : FilterConfig}
    {e e' : ConversationEntry} (he : e ∈ entries)
    (hc : (pass1 entries cfg).contains e.uuid = false)
    (hp : pass2Entry cfg e = some e') : e' ∈ filterConversation entries cfg := by
  rw [filterConversation_eq_filterMap]
  refine List.mem_filterMap.mpr ⟨e, he, ?_⟩
  rw [hc]
  simpa using hp

theorem uuid_not_mem_output {entries : List ConversationEntry} {cfg : FilterConfig} {u : String}
    (hu : u ∈ pass1 entries cfg) :
    u ∉ (filterConversation entries cfg).map (fun e => e.uuid) := by
  intro hmem
  obtain ⟨e', he', heq⟩ := List.mem_map.mp hmem
  obtain ⟨e, _, hc, hp⟩ := mem_filterConversation he'
  have huid := (pass2Entry_fields hp).1
  have hc' : (pass1 entries cfg).contains e.uuid = true := by
    refine (contains_iff_mem _ _).mpr ?_
    rw [← huid, heq]
    exact hu
  rw [hc] at hc'
  cases hc'

theorem uuid_mem_output {entries : List ConversationEntry} {cfg : FilterConfig}
    {e : ConversationEntry} (he : e ∈ entries) (hc : e.uuid ∉ pass1 entries cfg)
    (hp : (pass2Entry cfg e).isSome = true) :
    e.uuid ∈ (filterConversation entries cfg).map (fun x => x.uuid) := by
  obtain ⟨e', hp'⟩ := Option.isSome_iff_exists.mp hp
  have hcf : (pass1 entries cfg).contains e.uuid = false := by
    by_contra h
    exact hc ((contains_iff_mem _ _).mp (by simpa using h))
  exact List.mem_map.mpr ⟨e', filterConversation_mem_of he hcf hp', (pass2Entry_fields hp').1⟩

/-! ## Helper lemmas: classification predicates -/

theorem isToolCall_type {e : ConversationEntry} (h : isToolCall e none = true) :
    e.type = "assistant" := by
  unfold isToolCall at h
  by_cases ht : (e.type != "assistant") = true
  · rw [if_pos ht] at h; cases h
  · simpa using ht

theorem isToolResult_type {e : ConversationEntry} (h : isToolResult e = true) :
    e.type = "user" := by
  unfold isToolResult at h
  by_cases ht : (e.type != "user") = true
  · rw [if_pos ht] at h; cases h
  · simpa using ht

theorem getToolName_type {e : ConversationEntry} {t : String} (h : getToolName e = some t) :
    e.type = "assistant" := by
  unfold getToolName at h
  by_cases ht : (e.type != "assistant") = true
  · rw [if_pos ht] at h; cases h
  · simpa using ht

theorem isToolResult_of_assistant {e : ConversationEntry} (h : e.type = "assistant") :
    isToolResult e = false := by
  unfold isToolResult
  rw [h]
  rfl

theorem isToolCall_of_user {e : ConversationEntry} (h : e.type = "user")
    (n : Option String) : isToolCall e n = false := by
  unfold isToolCall
  rw [h]
  rfl

theorem isSubAgentResponse_of_assistant {e : ConversationEntry} (h : e.type = "assistant") :
    isSubAgentResponse e = false := by
  unfold isSubAgentResponse
  rw [h]
  rfl

theorem isToolResult_of_isFailed {e : ConversationEntry} (hf : isFailedToolResult e = true) :
    isToolResult e = true := by
  by_contra h
  have h' : isToolResult e = false := by simpa using h
  rw [isFailedToolResult, h'] at hf
  cases hf

theorem findToolName_ne_empty : ∀ {items : List MessageContentItem} {t : String},
    findToolName items = some t → t ≠ "" := by
  intro items
  induction items with
  | nil => intro t h; cases h
  | cons item rest ih =>
    intro t h
    rw [findToolName] at h
    split at h
    · next hcond =>
      rw [Bool.and_eq_true] at hcond
      have htr := hcond.2
      cases hn : item.name with
      | none => rw [hn] at h; cases h
      | some n =>
        rw [hn] at h htr
        obtain rfl := Option.some.inj h
        simpa [optStrTruthy] using htr
    · exact ih h

theorem findToolName_isToolUse : ∀ {items : List MessageContentItem} {t : String},
    findToolName items = some t →
      (items.any fun item =>
        if item.type == "tool_use" then true else false) = true := by
  intro items
  induction items with
  | nil => intro t h; cases h
  | cons item rest ih =>
    intro t h
    rw [findToolName] at h
    rw [List.any_cons]
    split at h
    · next hcond =>
      rw [Bool.and_eq_true] at hcond
      rw [hcond.1]
      simp
    · rw [ih h]
      simp

theorem isToolCall_of_getToolName {e : ConversationEntry} {t : String}
    (h : getToolName e = some t) : isToolCall e none = true := by
  have hty := getToolName_type h
  unfold getToolName at h
  unfold isToolCall
  rw [hty] at h ⊢
  simp only [if_neg] at h ⊢
  cases hc : e.message.content with
  | str s => rw [hc] at h; cases h
  | arr items =>
    rw [hc] at h
    show (items.any fun item =>
      if item.type == "tool_use" then true else false) = true
    exact findToolName_isToolUse h

/-! ## Helper lemmas: the first pass -/

theorem processSubAgentFiltering_map (e : ConversationEntry) (cfg : FilterConfig)
    (st : Pass1State) : (processSubAgentFiltering e cfg st).toolCallMap = st.toolCallMap := by
  unfold processSubAgentFiltering
  split <;> split <;> rfl

theorem processSubAgentFiltering_fil (u : String) (e : ConversationEntry) (cfg : FilterConfig)
    (st : Pass1State) :
    u ∈ (processSubAgentFiltering e cfg st).filteredUuids ↔
      (u = e.uuid ∧ ((cfg.subAgents.excludeCalls && isSubAgentCall e) ||
        (cfg.subAgents.excludeResponses && isSubAgentResponse e)) = true) ∨
      u ∈ st.filteredUuids := by
  unfold processSubAgentFiltering
  by_cases h1 : (cfg.subAgents.excludeCalls && isSubAgentCall e) = true <;>
    by_cases h2 : (cfg.subAgents.excludeResponses && isSubAgentResponse e) = true <;>
    simp [h1, h2, setAdd_mem]

theorem processToolCallFiltering_map (e : ConversationEntry) (cfg : FilterConfig)
    (st : Pass1State) :
    (processToolCallFiltering e cfg st).toolCallMap =
      (match (if isToolCall e none then getToolName e else none) with
       | some t => (e.uuid, t) :: st.toolCallMap
       | none => st.toolCallMap) := by
  unfold processToolCallFiltering
  by_cases hc : isToolCall e none = true
  · cases hn : getToolName e with
    | none => simp [hc, hn]
    | some t =>
      by_cases hf : (shouldFilterTool t cfg && !optBoolTruthy cfg.tools.excludeResultsOnly) = true <;>
        simp [hc, hn, hf]
  · simp [hc]

theorem processToolCallFiltering_fil (u : String) (e : ConversationEntry) (cfg : FilterConfig)
    (st : Pass1State) :
    u ∈ (processToolCallFiltering e cfg st).filteredUuids ↔
      (u = e.uuid ∧ toolCallMarkHit cfg e = true) ∨ u ∈ st.filteredUuids := by
  unfold processToolCallFiltering toolCallMarkHit
  by_cases hc : isToolCall e none = true
  · cases hn : getToolName e with
    | none => simp [hc, hn]
    | some t =>
      by_cases hf : (shouldFilterTool t cfg && !optBoolTruthy cfg.tools.excludeResultsOnly) = true <;>
        simp [hc, hn, hf, setAdd_mem]
  · simp [hc]

theorem processToolResultFiltering_map (e : ConversationEntry)
    (prev : Option ConversationEntry) (cfg : FilterConfig) (st : Pass1State) :
    (processToolResultFiltering e prev cfg st).toolCallMap = st.toolCallMap := by
  unfold processToolResultFiltering
  split
  · rfl
  · split <;> split <;> rfl

theorem processToolResultFiltering_fil (u : String) (e : ConversationEntry)
    (prev : Option ConversationEntry) (cfg : FilterConfig) (st : Pass1State) :
    u ∈ (processToolResultFiltering e prev cfg st).filteredUuids ↔
      (u = e.uuid ∧ toolResultMarkHit cfg st.toolCallMap prev e = true) ∨
      u ∈ st.filteredUuids := by
  unfold processToolResultFiltering toolResultMarkHit
  by_cases hr : isToolResult e = true
  · by_cases hp : pairingHit st.toolCallMap prev cfg = true <;>
      by_cases hf : (optBoolTruthy cfg.tools.excludeFailed && isFailedToolResult e) = true <;>
      simp [hr, hp, hf, setAdd_mem]
  · simp [hr]

theorem processRoleFiltering_map (e : ConversationEntry) (cfg : FilterConfig)
    (st : Pass1State) : (processRoleFiltering e cfg st).toolCallMap = st.toolCallMap := by
  unfold processRoleFiltering
  split <;> rfl

theorem processRoleFiltering_fil (u : String) (e : ConversationEntry) (cfg : FilterConfig)
    (st : Pass1State) :
    u ∈ (processRoleFiltering e cfg st).filteredUuids ↔
      (u = e.uuid ∧ excludeByRoleHit cfg e = true) ∨ u ∈ st.filteredUuids := by
  unfold processRoleFiltering
  by_cases h : excludeByRoleHit cfg e = true <;> simp [h, setAdd_mem]

theorem toolResultMarkHit_map_irrelevant (cfg : FilterConfig) (st : Pass1State)
    (prev : Option ConversationEntry) (e : ConversationEntry) :
    toolResultMarkHit cfg (processToolCallFiltering e cfg
        (processSubAgentFiltering e cfg st)).toolCallMap prev e =
      toolResultMarkHit cfg st.toolCallMap prev e := by
  rw [processToolCallFiltering_map, processSubAgentFiltering_map]
  by_cases hc : isToolCall e none = true
  · have hres : isToolResult e = false := isToolResult_of_assistant (isToolCall_type hc)
    cases hn : getToolName e with
    | none => simp [hc, hn]
    | some t =>
      simp only [hc, if_pos, hn]
      unfold toolResultMarkHit
      rw [hres]
      rfl
  · simp [hc]

theorem pass1Entry_map (cfg : FilterConfig) (prev : Option ConversationEntry)
    (e : ConversationEntry) (st : Pass1State) :
    (pass1Entry cfg prev e st).toolCallMap =
      (match (if isToolCall e none then getToolName e else none) with
       | some t => (e.uuid, t) :: st.toolCallMap
       | none => st.toolCallMap) := by
  unfold pass1Entry
  rw [processRoleFiltering_map, processToolResultFiltering_map,
    processToolCallFiltering_map, processSubAgentFiltering_map]

theorem pass1Entry_fil (u : String) (cfg : FilterConfig) (prev : Option ConversationEntry)
    (e : ConversationEntry) (st : Pass1State) :
    u ∈ (pass1Entry cfg prev e st).filteredUuids ↔
      (u = e.uuid ∧ markCond cfg st.toolCallMap prev e = true) ∨ u ∈ st.filteredUuids := by
  unfold pass1Entry markCond
  rw [processRoleFiltering_fil, processToolResultFiltering_fil, toolResultMarkHit_map_irrelevant,
    processToolCallFiltering_fil, processSubAgentFiltering_fil]
  constructor
  · rintro (⟨rfl, hr⟩ | (⟨rfl, hr⟩ | (⟨rfl, hr⟩ | (⟨rfl, hr⟩ | hst)))) <;>
      first
        | (left; exact ⟨rfl, by simp [hr]⟩)
        | (right; exact hst)
  · rintro (⟨rfl, hr⟩ | hst)
    · rw [Bool.or_eq_true, Bool.or_eq_true, Bool.or_eq_true, Bool.or_eq_true] at hr
      rcases hr with ((((h | h) | h) | h) | h)
      · right; right; right; left; exact ⟨rfl, by simp [h]⟩
      · right; right; right; left; exact ⟨rfl, by simp [h]⟩
      · right; right; left; exact ⟨rfl, h⟩
      · right; left; exact ⟨rfl, h⟩
      · left; exact ⟨rfl, h⟩
    · right; right; right; right; exact hst

theorem pass1Aux_fil_mono {cfg : FilterConfig} {u : String} :
    ∀ {l : List ConversationEntry} {prev : Option ConversationEntry} {st : Pass1State},
      u ∈ st.filteredUuids → u ∈ (pass1Aux cfg prev l st).filteredUuids := by
  intro l
  induction l with
  | nil => intro prev st h; exact h
  | cons e t ih =>
    intro prev st h
    exact ih ((pass1Entry_fil u cfg prev e st).mpr (Or.inr h))

theorem pass1Aux_fil_not_mem {cfg : FilterConfig} {u : String} :
    ∀ {l : List ConversationEntry} {prev : Option ConversationEntry} {st : Pass1State},
      u ∉ st.filteredUuids → (∀ e ∈ l, e.uuid ≠ u) →
      u ∉ (pass1Aux cfg prev l st).filteredUuids := by
  intro l
  induction l with
  | nil => intro prev st h _; exact h
  | cons e t ih =>
    intro prev st hst hl
    refine ih ?_ (fun e' he' => hl e' (List.mem_cons_of_mem e he'))
    rw [pass1Entry_fil]
    rintro (⟨heq, _⟩ | hmem)
    · exact hl e (List.mem_cons_self e t) heq.symm
    · exact hst hmem

theorem pass1Aux_append (cfg : FilterConfig) (l₁ l₂ : List ConversationEntry)
    (prev : Option ConversationEntry) (st : Pass1State) :
    pass1Aux cfg prev (l₁ ++ l₂) st =
      pass1Aux cfg (lastOrPrev prev l₁) l₂ (pass1Aux cfg prev l₁ st) := by
  induction l₁ generalizing prev st with
  | nil => rfl
  | cons e t ih =>
    show pass1Aux cfg (some e) (t ++ l₂) (pass1Entry cfg prev e st) = _
    rw [ih]
    have hl : lastOrPrev (some e) t = lastOrPrev prev (e :: t) := by
      unfold lastOrPrev
      cases t with
      | nil => rfl
      | cons a r =>
        rw [List.getLast?_cons_cons]
        cases hgl : (a :: r).getLast? with
        | none => exact absurd (List.getLast?_eq_none_iff.mp hgl) (by simp)
        | some x => rfl
    rw [hl]
    rfl

theorem markCond_eq_entryMarkP {cfg : FilterConfig}
    (hP : ∀ t, shouldFilterTool t cfg = false) (m : List (String × String))
    (prev : Option ConversationEntry) (e : ConversationEntry) :
    markCond cfg m prev e = entryMarkP cfg e := by
  have h1 : toolCallMarkHit cfg e = false := by
    unfold toolCallMarkHit
    cases hn : getToolName e with
    | none => simp
    | some t => simp [hP t]
  have h2 : pairingHit m prev cfg = false := by
    unfold pairingHit
    cases prev with
    | none => rfl
    | some p =>
      cases hl : List.lookup p.uuid m with
      | none => simp [hl]
      | some t => simp [hl, hP t]
  have h3 : toolResultMarkHit cfg m prev e =
      (optBoolTruthy cfg.tools.excludeFailed && isFailedToolResult e) := by
    unfold toolResultMarkHit
    rw [h2]
    cases hf : isFailedToolResult e with
    | false => simp
    | true => simp [isToolResult_of_isFailed hf]
  unfold markCond entryMarkP
  rw [h1, h3]
  cases (cfg.subAgents.excludeCalls && isSubAgentCall e) <;>
    cases (cfg.subAgents.excludeResponses && isSubAgentResponse e) <;>
    cases (optBoolTruthy cfg.tools.excludeFailed && isFailedToolResult e) <;>
    cases excludeByRoleHit cfg e <;> rfl

theorem pass1Aux_fil_pointwise {cfg : FilterConfig}
    (hP : ∀ t, shouldFilterTool t cfg = false) :
    ∀ (l : List ConversationEntry) (prev : Option ConversationEntry) (st : Pass1State)
      (u : String),
      u ∈ (pass1Aux cfg prev l st).filteredUuids ↔
        (∃ e ∈ l, e.uuid = u ∧ entryMarkP cfg e = true) ∨ u ∈ st.filteredUuids := by
  intro l
  induction l with
  | nil => intro prev st u; simp [pass1Aux]
  | cons e t ih =>
    intro prev st u
    show u ∈ (pass1Aux cfg (some e) t (pass1Entry cfg prev e st)).filteredUuids ↔ _
    rw [ih, pass1Entry_fil, markCond_eq_entryMarkP hP]
    constructor
    · rintro (⟨e', he', rfl, hm⟩ | (⟨rfl, hm⟩ | hst))
      · exact Or.inl ⟨e', List.mem_cons_of_mem e he', rfl, hm⟩
      · exact Or.inl ⟨e, List.mem_cons_self e t, rfl, hm⟩
      · exact Or.inr hst
    · rintro (⟨e', he', rfl, hm⟩ | hst)
      · rcases List.mem_cons.mp he' with rfl | he''
        · exact Or.inr (Or.inl ⟨rfl, hm⟩)
        · exact Or.inl ⟨e', he'', rfl, hm⟩
      · exact Or.inr (Or.inr hst)

theorem pass1_pointwise {cfg : FilterConfig} (hP : ∀ t, shouldFilterTool t cfg = false)
    (entries : List ConversationEntry) (u : String) :
    u ∈ pass1 entries cfg ↔ ∃ e ∈ entries, e.uuid = u ∧ entryMarkP cfg e = true := by
  unfold pass1
  rw [pass1Aux_fil_pointwise hP]
  simp

/-! ## Claim C2: order preservation -/

/-- Claim C2: for every event list and configuration the output of
`filterConversation` is the input restricted to survivors: the uuid
sequence of the output is a sublist (same relative order) of the uuid
sequence of the input. -/
theorem filterConversation_order_preservation (entries : List ConversationEntry)
    (cfg : FilterConfig) :
    ((filterConversation entries cfg).map (fun e => e.uuid)).Sublist
      (entries.map (fun e => e.uuid)) := by
  rw [filterConversation_eq_filterMap]
  generalize pass1 entries cfg = marks
  induction entries with
  | nil => simp
  | cons e t ih =>
    rw [List.filterMap_cons, List.map_cons]
    cases hg : (if marks.contains e.uuid then none else pass2Entry cfg e) with
    | none => exact ih.cons e.uuid
    | some e' =>
      rw [List.map_cons]
      have huid : e'.uuid = e.uuid := by
        by_cases hc : marks.contains e.uuid = true
        · rw [if_pos hc] at hg; cases hg
        · rw [if_neg hc] at hg; exact (pass2Entry_fields hg).1
      rw [huid]
      exact ih.cons₂ e.uuid

/-! ## Claim C10: frame property of filtering -/

/-- Claim C10: every entry of the output of `filterConversation` agrees
with some input entry on every field other than the message content:
`uuid`, `parentUuid`, `timestamp`, `type`, `message.role` and
`toolUseResult` are preserved unchanged; only the content payload may
differ. -/
theorem filterConversation_frame (entries : List ConversationEntry) (cfg : FilterConfig)
    (e' : ConversationEntry) (h : e' ∈ filterConversation entries cfg) :
    ∃ e ∈ entries, e'.uuid = e.uuid ∧ e'.parentUuid = e.parentUuid ∧
      e'.timestamp = e.timestamp ∧ e'.type = e.type ∧ e'.message.role = e.message.role ∧
      e'.toolUseResult = e.toolUseResult := by
  obtain ⟨e, he, _, hp⟩ := mem_filterConversation h
  exact ⟨e, he, pass2Entry_fields hp⟩

/-- Witness for claim C10 at a concrete input: the base configuration
trims the single entry's content and preserves every other field. -/
theorem filterConversation_frame_witness :
    ∃ e ∈ [mkEntry "1" "user" (.str " hi ")],
      (mkEntry "1" "user" (.str "hi")).uuid = e.uuid ∧
      (mkEntry "1" "user" (.str "hi")).parentUuid = e.parentUuid ∧
      (mkEntry "1" "user" (.str "hi")).timestamp = e.timestamp ∧
      (mkEntry "1" "user" (.str "hi")).type = e.type ∧
      (mkEntry "1" "user" (.str "hi")).message.role = e.message.role ∧
      (mkEntry "1" "user" (.str "hi")).toolUseResult = e.toolUseResult :=
  filterConversation_frame [mkEntry "1" "user" (.str " hi ")] cfgBase
    (mkEntry "1" "user" (.str "hi")) (by decide)

/-! ## Claim C7: preset fallback -/

/-- Counterexample to claim C7: the preset name `toString` is not a key
of the preset table, yet resolving it does not fall back to the heavy
configuration.  The JS bracket lookup finds the inherited truthy
`Object.prototype.toString`, the `|| heavy` fallback is bypassed, and
the builder dereferences `preset.content` of a function: the call
throws a `TypeError` instead of producing the heavy configuration. -/
theorem getFilterConfig_prototype_key_throws :
    getFilterConfig (fun _ => none) (some "toString") = none ∧
      getFilterConfig (fun _ => none) (some "toString") ≠
        getFilterConfig (fun _ => none) (some "heavy") :=
  ⟨rfl, by decide⟩

/-- Claim C7 (amended): a preset name other than the known `none`,
`light`, `heavy` falls back to the heavy configuration exactly when it
is not an own property name of `Object.prototype`.  For such a name
the bracket lookup yields `undefined`, the `|| heavy` fallback fires,
and for every environment the result equals resolving `"heavy"`; for a
name inherited from `Object.prototype` (`toString`, `valueOf`,
`constructor`, …) the truthy inherited member bypasses the fallback
and the builder throws a `TypeError` instead of resolving. -/
theorem getFilterConfig_unknown_preset (env : Env) (name : String)
    (h1 : name ≠ "none") (h2 : name ≠ "light") (h3 : name ≠ "heavy") :
    (OBJECT_PROTOTYPE_KEYS.contains name = false →
      getFilterConfig env (some name) = getFilterConfig env (some "heavy")) ∧
    (OBJECT_PROTOTYPE_KEYS.contains name = true →
      getFilterConfig env (some name) = none) := by
  have hget : FILTER_PRESETS_get name =
      (if OBJECT_PROTOTYPE_KEYS.contains name then PresetLookup.inherited
       else PresetLookup.missing) := by
    unfold FILTER_PRESETS_get
    split
    · exact absurd rfl h1
    · exact absurd rfl h2
    · exact absurd rfl h3
    · rfl
  constructor
  · intro hmem
    by_cases h0 : name = ""
    · subst h0; rfl
    · have hsel : (if name != "" then name else "heavy") = name := by
        simp [h0]
      show (let selectedPreset := if name != "" then name else "heavy"
            match FILTER_PRESETS_get selectedPreset with
            | .found p => some (buildFilterConfig env p)
            | .inherited => none
            | .missing => some (buildFilterConfig env presetHeavy)) = _
      simp only [hsel, hget, hmem]
      rfl
  · intro hmem
    have h0 : name ≠ "" := by
      intro hx
      subst hx
      exact absurd hmem (by decide)
    have hsel : (if name != "" then name else "heavy") = name := by
      simp [h0]
    show (let selectedPreset := if name != "" then name else "heavy"
          match FILTER_PRESETS_get selectedPreset with
          | .found p => some (buildFilterConfig env p)
          | .inherited => none
          | .missing => some (buildFilterConfig env presetHeavy)) = _
    simp only [hsel, hget, hmem]
    rfl

/-- Witness for the amended claim C7 at concrete inputs: in the empty
environment the unknown name `smart` resolves to the heavy
configuration, while the prototype-inherited name `valueOf` makes the
resolution throw. -/
theorem getFilterConfig_unknown_preset_witness :
    getFilterConfig (fun _ => none) (some "smart") =
        getFilterConfig (fun _ => none) (some "heavy") ∧
      getFilterConfig (fun _ => none) (some "valueOf") = none :=
  ⟨(getFilterConfig_unknown_preset (fun _ => none) "smart" (by decide) (by decide)
      (by decide)).1 (by decide),
    (getFilterConfig_unknown_preset (fun _ => none) "valueOf" (by decide) (by decide)
      (by decide)).2 (by decide)⟩

/-! ## Claim C8: the "up to nth user turn" contract -/

theorem getUpToUserAux_all {n : Int} :
    ∀ (l : List ConversationEntry) (count : Int),
      count + (l.countP (fun e => e.type == "user") : Int) < n →
      getUpToUserAux n l count = l := by
  intro l
  induction l with
  | nil => intro count _; rfl
  | cons e t ih =>
    intro count h
    rw [List.countP_cons] at h
    unfold getUpToUserAux
    by_cases he : (e.type == "user") = true
    · rw [if_pos he]
      simp only [he, if_pos] at h
      push_cast at h
      rw [if_neg (by omega)]
      congr 1
      exact ih (count + 1) (by omega)
    · rw [if_neg he]
      simp only [he, if_neg] at h
      push_cast at h
      congr 1
      exact ih count (by omega)

theorem getUpToUserAux_before_nth {n : Int} :
    ∀ (pre : List ConversationEntry) (u : ConversationEntry)
      (post : List ConversationEntry) (count : Int), u.type = "user" →
      count + (pre.countP (fun e => e.type == "user") : Int) = n - 1 →
      getUpToUserAux n (pre ++ u :: post) count = pre := by
  intro pre
  induction pre with
  | nil =>
    intro u post count hu hc
    simp only [List.countP_nil, Int.ofNat_zero, Int.add_zero] at hc
    show getUpToUserAux n (u :: post) count = []
    unfold getUpToUserAux
    rw [if_pos (by simp [hu]), if_pos (by omega)]
  | cons e t ih =>
    intro u post count hu hc
    rw [List.countP_cons] at hc
    show getUpToUserAux n (e :: (t ++ u :: post)) count = e :: t
    unfold getUpToUserAux
    by_cases he : (e.type == "user") = true
    · rw [if_pos he]
      simp only [he, if_pos] at hc
      push_cast at hc
      rw [if_neg (by omega)]
      congr 1
      exact ih u post (count + 1) hu (by omega)
    · rw [if_neg he]
      simp only [he, if_neg] at hc
      push_cast at hc
      congr 1
      exact ih u post count hu (by omega)

/-- Claim C8: `getUpToUserMessage` returns the empty list for an index
at most 0; returns the entire list when it holds fewer than `n`
user-typed entries; and otherwise returns exactly the prefix strictly
before the nth user-typed entry. -/
theorem getUpToUserMessage_spec (entries : List ConversationEntry) (n : Int) :
    (n ≤ 0 → getUpToUserMessage entries n = []) ∧
    ((entries.countP (fun e => e.type == "user") : Int) < n →
      getUpToUserMessage entries n = entries) ∧
    (∀ pre u post, entries = pre ++ u :: post → u.type = "user" →
      (pre.countP (fun e => e.type == "user") : Int) = n - 1 →
      getUpToUserMessage entries n = pre) := by
  refine ⟨?_, ?_, ?_⟩
  · intro h
    unfold getUpToUserMessage
    rw [if_pos h]
  · intro h
    unfold getUpToUserMessage
    have hnn : (0 : Int) ≤ (entries.countP (fun e => e.type == "user") : Int) :=
      Int.ofNat_nonneg _
    rw [if_neg (by omega)]
    exact getUpToUserAux_all entries 0 (by omega)
  · intro pre u post heq hu hc
    subst heq
    unfold getUpToUserMessage
    have hnn : (0 : Int) ≤ (pre.countP (fun e => e.type == "user") : Int) :=
      Int.ofNat_nonneg _
    rw [if_neg (by omega)]
    exact getUpToUserAux_before_nth pre u post 0 hu (by omega)

/-- Witness for claim C8: five events with the second and fifth of user
type; index 2 returns everything strictly before the fifth event (the
second user turn). -/
theorem getUpToUserMessage_spec_witness :
    getUpToUserMessage [mkEntry "1" "assistant" (.str "m"), mkEntry "2" "user" (.str "m"),
      mkEntry "3" "assistant" (.str "m"), mkEntry "4" "assistant" (.str "m"),
      mkEntry "5" "user" (.str "m")] 2 =
      [mkEntry "1" "assistant" (.str "m"), mkEntry "2" "user" (.str "m"),
        mkEntry "3" "assistant" (.str "m"), mkEntry "4" "assistant" (.str "m")] :=
  (getUpToUserMessage_spec _ 2).2.2
    [mkEntry "1" "assistant" (.str "m"), mkEntry "2" "user" (.str "m"),
      mkEntry "3" "assistant" (.str "m"), mkEntry "4" "assistant" (.str "m")]
    (mkEntry "5" "user" (.str "m")) [] rfl rfl (by decide)

/-! ## Claim C4: item-level emptiness dropping -/

/-- Counterexample to claim C4: with `excludeEmpty` set and thinking
stripping on, a plain text item whose text became the empty string is
NOT dropped — the output event still carries the empty-text item (the
truthiness guard of `shouldKeepContentItem` bypasses empty strings).
This matches the repository's own test
("should filter empty array content"). -/
theorem filterConversation_keeps_empty_text_item :
    filterConversation
      [mkEntry "1" "assistant"
        (.arr [{ type := "text", text := some "<thinking>only thinking</thinking>" }])]
      cfgThinkingEmpty =
      [mkEntry "1" "assistant" (.arr [{ type := "text", text := some "" }])] := by
  rfl

/-- Claim C4 (amended): the item-level emptiness check of
`processArrayContent` never drops any item — for every configuration
and rewriting function, the item filter is vacuous: plain text items
are kept even when their text became empty, and tool-invocation /
tool-result items are never dropped. -/
theorem processArrayContent_never_drops (content : List MessageContentItem)
    (f : String → String) (cfg : FilterConfig) :
    processArrayContent content f cfg =
      content.map (fun item => processContentItem item f) := by
  unfold processArrayContent
  rw [List.filter_eq_self.mpr]
  intro item _
  unfold shouldKeepContentItem
  split
  · rfl
  · split
    · next u hequ =>
      split
      · next h0 =>
        apply decide_eq_true
        cases hd : u.data with
        | nil =>
          have ht0 : u = "" := String.ext hd
          rw [ht0] at h0
          simp at h0
        | cons c r =>
          show 0 < u.data.length
          rw [hd]
          simp
      · rfl
    · rfl

/-! ## Claim C5: truncation exactness -/

theorem processString_eq_trim_truncate {cfg : FilterConfig}
    (hthink : cfg.content.excludeThinking = false)
    (hrem : cfg.content.excludeSystemReminders = false)
    (hpat : cfg.content.customPatterns = none) (s : String) :
    processString cfg s = jsTrim (truncateIfNeeded cfg s) := by
  unfold processString removeThinkingBlocks removeSystemReminders applyCustomPatterns
  rw [hthink, hrem, hpat]
  rfl

theorem truncateIfNeeded_some {cfg : FilterConfig} {M : Int}
    (hM : cfg.messages.maxLength = some M) (s : String) :
    truncateIfNeeded cfg s =
      if M = 0 then s
      else if (s.data.length : Int) ≤ M then s
      else String.mk (s.data.take M.toNat) ++ "...[truncated]" := by
  unfold truncateIfNeeded
  rw [hM]

theorem filterContentPatterns_str (cfg : FilterConfig) (s : String) :
    filterContentPatterns (.str s) cfg =
      if s == "" then .str s else .str (processString cfg s) := rfl

theorem filterContentPatterns_arr (cfg : FilterConfig) (items : List MessageContentItem) :
    filterContentPatterns (.arr items) cfg =
      .arr (processArrayContent items (fun s => processString cfg s) cfg) := rfl

theorem processString_eq_trim {cfg : FilterConfig}
    (hthink : cfg.content.excludeThinking = false)
    (hrem : cfg.content.excludeSystemReminders = false)
    (hpat : cfg.content.customPatterns = none)
    (hlen : cfg.messages.maxLength = none) (s : String) :
    processString cfg s = jsTrim s := by
  rw [processString_eq_trim_truncate hthink hrem hpat]
  unfold truncateIfNeeded
  rw [hlen]

/-- Counterexample to claim C5: a payload of length at most `maxLength`
is not always left untouched — the unconditional whitespace trim of
`processString` rewrites `"  a"` even though no truncation applies and
no other content option is enabled. -/
theorem truncation_not_untouched_below_max :
    (("  a".length : Int) ≤ 5 ∧ cfgMax5.messages.maxLength = some 5) ∧
      filterContentPatterns (.str "  a") cfgMax5 ≠ MessageContent.str "  a" := by
  decide

/-- Claim C5 (amended): with `maxLength` set to a positive `M`, no
content-stripping option enabled and a payload carrying no leading or
trailing whitespace (so that the unconditional trim is a no-op): a
string payload of length at most `M` is left untouched, and one of
length greater than `M` becomes exactly its first `M` characters
followed by the truncation marker. -/
theorem truncation_exactness (cfg : FilterConfig) (M : Int) (s : String)
    (hthink : cfg.content.excludeThinking = false)
    (hrem : cfg.content.excludeSystemReminders = false)
    (hpat : cfg.content.customPatterns = none)
    (hM : cfg.messages.maxLength = some M) (hMpos : 0 < M)
    (htrim : jsTrim s = s) :
    ((s.length : Int) ≤ M → filterContentPatterns (.str s) cfg = .str s) ∧
    (M < (s.length : Int) →
      filterContentPatterns (.str s) cfg =
        .str (String.mk (s.data.take M.toNat) ++ "...[truncated]")) := by
  have hm0 : ¬ M = 0 := by omega
  constructor
  · intro hle
    have hle2 : (s.data.length : Int) ≤ M := hle
    rw [filterContentPatterns_str]
    by_cases h0 : (s == "") = true
    · rw [if_pos h0]
    · rw [if_neg h0, processString_eq_trim_truncate hthink hrem hpat,
        truncateIfNeeded_some hM, if_neg hm0, if_pos hle2, htrim]
  · intro hgt
    have hgt2 : M < (s.data.length : Int) := hgt
    have hs0 : s ≠ "" := by
      intro h0
      rw [h0] at hgt
      simp at hgt
      omega
    rw [filterContentPatterns_str,
      if_neg (by simpa using hs0 : ¬ (s == "") = true),
      processString_eq_trim_truncate hthink hrem hpat,
      truncateIfNeeded_some hM, if_neg hm0,
      if_neg (by omega : ¬ ((s.data.length : Int) ≤ M))]

    congr 1
    apply String.ext
    show trimList (String.mk (s.data.take M.toNat) ++ "...[truncated]").data =
      (String.mk (s.data.take M.toNat) ++ "...[truncated]").data
    have hdata : (String.mk (s.data.take M.toNat) ++ "...[truncated]").data =
        s.data.take M.toNat ++ ("...[truncated]" : String).data := by
      rw [String.data_append]
    rw [hdata]
    apply trimList_eq_self_of_ends
    · intro c t' hct
      cases hd : s.data with
      | nil => exact absurd (String.ext hd) hs0
      | cons c0 rest =>
        have hM1 : 1 ≤ M.toNat := by omega
        obtain ⟨k, hk⟩ : ∃ k, M.toNat = k + 1 := ⟨M.toNat - 1, by omega⟩
        rw [hd, hk, List.take_succ_cons] at hct
        have hc0 : c = c0 := by
          have := congrArg List.head? hct
          simpa using this.symm
        rw [hc0]
        exact head_not_ws_of_trim_eq htrim hd
    · intro c hc
      rw [List.getLast?_append_of_ne_nil _ (by decide)] at hc
      have : c = ']' := by
        have hmk : (("...[truncated]" : String).data).getLast? = some ']' := by decide
        rw [hmk] at hc
        exact (Option.some.inj hc).symm
      rw [this]
      decide

/-- Witness for claim C5 at a concrete input: with `maxLength` 5 the
nine-character payload `abcdefgh` becomes its first five characters
plus the marker. -/
theorem truncation_exactness_witness :
    filterContentPatterns (.str "abcdefgh") cfgMax5 =
      .str (String.mk ("abcdefgh".data.take (5 : Int).toNat) ++ "...[truncated]") :=
  (truncation_exactness cfgMax5 5 "abcdefgh" rfl rfl rfl rfl (by decide) (by decide)).2
    (by decide)

/-! ## Claim C6: sub-agent response atomicity -/

theorem isSubAgentResponse_eq (e : ConversationEntry) :
    isSubAgentResponse e = (e.type == "user" && subAgentShape e.toolUseResult) := by
  unfold isSubAgentResponse
  by_cases ht : (e.type != "user") = true
  · rw [if_pos ht]
    have h2 : (e.type == "user") = false := by simpa using ht
    rw [h2]
    rfl
  · rw [if_neg ht]
    have h2 : (e.type == "user") = true := by simpa using ht
    rw [h2]
    cases e.toolUseResult with
    | undef => rfl
    | plain s =>
      by_cases hs : (s != "") = true <;>
        simp [toolUseResultTruthy, hs, subAgentShape]
    | record d t c =>
      cases d <;> cases t <;> cases c <;>
        simp [toolUseResultTruthy, optIntTruthy, subAgentShape, Bool.and_assoc]

theorem shouldFilterTool_off {cfg : FilterConfig}
    (hspec : cfg.tools.excludeSpecific = none ∨ cfg.tools.excludeSpecific = some [])
    (hcat : cfg.tools.excludeCategories = none ∨ cfg.tools.excludeCategories = some []) :
    ∀ t, shouldFilterTool t cfg = false := by
  intro t
  unfold shouldFilterTool
  rcases hspec with h | h <;> rcases hcat with h2 | h2 <;> simp [h, h2]

/-- Counterexample to claim C6: a user event whose tool outcome is a
structured record with all three numeric fields populated, but with
`totalDurationMs = 0`, is NOT removed when `subAgents.excludeResponses`
is set — the JS truthiness test `result.totalDurationMs &&` rejects the
zero value, so the event survives although the claim requires its
removal. -/
theorem subAgentResponse_zero_duration_kept :
    filterConversation
      [{ mkEntry "s" "user" (.str "done") with
          toolUseResult := .record (some 0) (some 1000) (some 3) }] cfgResponses =
      [{ mkEntry "s" "user" (.str "done") with
          toolUseResult := .record (some 0) (some 1000) (some 3) }] := by
  rfl

/-- Claim C6 (amended): with `subAgents.excludeResponses` set (and the
other exclusion axes off), `filterConversation` removes every user
event whose tool outcome is a structured record with `totalDurationMs`
and `totalTokens` present and non-zero (JS-truthy) and
`totalToolUseCount` present; an event whose outcome is a plain value or
an object lacking that truthy three-field shape is not removed. -/
theorem subAgentResponse_atomicity (cfg : FilterConfig) (entries : List ConversationEntry)
    (e : ConversationEntry)
    (hresp : cfg.subAgents.excludeResponses = true)
    (hcalls : cfg.subAgents.excludeCalls = false)
    (hfail : optBoolTruthy cfg.tools.excludeFailed = false)
    (hrole : cfg.messages.excludeByRole = none)
    (hspec : cfg.tools.excludeSpecific = none ∨ cfg.tools.excludeSpecific = some [])
    (hcat : cfg.tools.excludeCategories = none ∨ cfg.tools.excludeCategories = some [])
    (hempty : optBoolTruthy cfg.messages.excludeEmpty = false)
    (hnodup : (entries.map (fun x => x.uuid)).Nodup)
    (he : e ∈ entries) :
    (e.type = "user" → subAgentShape e.toolUseResult = true →
      e.uuid ∉ (filterConversation entries cfg).map (fun x => x.uuid)) ∧
    (subAgentShape e.toolUseResult = false →
      e.uuid ∈ (filterConversation entries cfg).map (fun x => x.uuid)) := by
  have hP := shouldFilterTool_off hspec hcat
  have hmark : ∀ x, entryMarkP cfg x = isSubAgentResponse x := by
    intro x
    unfold entryMarkP excludeByRoleHit
    rw [hcalls, hresp, hfail, hrole]
    simp
  constructor
  · intro hu hshape
    apply uuid_not_mem_output
    rw [pass1_pointwise hP]
    refine ⟨e, he, rfl, ?_⟩
    rw [hmark e, isSubAgentResponse_eq, hshape, hu]
    rfl
  · intro hshape
    apply uuid_mem_output he
    · rw [pass1_pointwise hP]
      rintro ⟨e', he', hequ, hm⟩
      have heq : e' = e := List.inj_on_of_nodup_map hnodup he' he hequ
      subst heq
      rw [hmark e', isSubAgentResponse_eq, hshape] at hm
      simp at hm
    · unfold pass2Entry
      rw [hempty]
      simp

/-- Witness for claim C6 at a concrete input: a genuine sub-agent
response record (5000 ms, 1000 tokens, 3 tool uses) is removed from a
singleton conversation. -/
theorem subAgentResponse_atomicity_witness :
    (({ mkEntry "s1" "user" (.str "done") with
          toolUseResult := .record (some 5000) (some 1000) (some 3) }
        : ConversationEntry).type = "user" →
      subAgentShape ({ mkEntry "s1" "user" (.str "done") with
          toolUseResult := .record (some 5000) (some 1000) (some 3) }
        : ConversationEntry).toolUseResult = true →
      ({ mkEntry "s1" "user" (.str "done") with
          toolUseResult := .record (some 5000) (some 1000) (some 3) }
        : ConversationEntry).uuid ∉
        (filterConversation
          [{ mkEntry "s1" "user" (.str "done") with
              toolUseResult := .record (some 5000) (some 1000) (some 3) }]
          cfgResponses).map (fun x => x.uuid)) ∧
    (subAgentShape ({ mkEntry "s1" "user" (.str "done") with
          toolUseResult := .record (some 5000) (some 1000) (some 3) }
        : ConversationEntry).toolUseResult = false →
      ({ mkEntry "s1" "user" (.str "done") with
          toolUseResult := .record (some 5000) (some 1000) (some 3) }
        : ConversationEntry).uuid ∈
        (filterConversation
          [{ mkEntry "s1" "user" (.str "done") with
              toolUseResult := .record (some 5000) (some 1000) (some 3) }]
          cfgResponses).map (fun x => x.uuid)) :=
  subAgentResponse_atomicity cfgResponses _ _ rfl rfl rfl rfl (Or.inl rfl) (Or.inl rfl) rfl
    (by decide) (by decide)

/-! ## Claim C9: statistics attribution -/

theorem updateThinkingStats_proj (e : ConversationEntry) (cfg : FilterConfig)
    (st : FilterStats) :
    (updateThinkingStats e cfg st).total = st.total ∧
    (updateThinkingStats e cfg st).filtered = st.filtered ∧
    (updateThinkingStats e cfg st).byCategory.thinking =
      st.byCategory.thinking + (if thinkingStatHit cfg e = true then 1 else 0) ∧
    (updateThinkingStats e cfg st).byCategory.subAgentCalls = st.byCategory.subAgentCalls ∧
    (updateThinkingStats e cfg st).byCategory.subAgentResponses =
      st.byCategory.subAgentResponses ∧
    (updateThinkingStats e cfg st).byCategory.tools = st.byCategory.tools ∧
    (updateThinkingStats e cfg st).byCategory.failed = st.byCategory.failed := by
  unfold updateThinkingStats thinkingStatHit
  by_cases h1 : cfg.content.excludeThinking = true
  · by_cases h2 : containsSubstr (jsonStringifyContent e.message.content) "thinking>" = true <;>
      simp [h1, h2]
  · simp [h1]

theorem updateSubAgentStats_proj (e : ConversationEntry) (cfg : FilterConfig)
    (st : FilterStats) :
    (updateSubAgentStats e cfg st).total = st.total ∧
    (updateSubAgentStats e cfg st).filtered = st.filtered ∧
    (updateSubAgentStats e cfg st).byCategory.thinking = st.byCategory.thinking ∧
    (updateSubAgentStats e cfg st).byCategory.subAgentCalls =
      st.byCategory.subAgentCalls + (if subAgentCallStatHit cfg e = true then 1 else 0) ∧
    (updateSubAgentStats e cfg st).byCategory.subAgentResponses =
      st.byCategory.subAgentResponses + (if subAgentResponseStatHit cfg e = true then 1 else 0) ∧
    (updateSubAgentStats e cfg st).byCategory.tools = st.byCategory.tools ∧
    (updateSubAgentStats e cfg st).byCategory.failed = st.byCategory.failed := by
  unfold updateSubAgentStats subAgentCallStatHit subAgentResponseStatHit
  by_cases h1 : (isSubAgentCall e && cfg.subAgents.excludeCalls) = true <;>
    by_cases h2 : (isSubAgentResponse e && cfg.subAgents.excludeResponses) = true <;>
    simp [h1, h2]

theorem updateToolStats_proj (e : ConversationEntry) (cfg : FilterConfig)
    (st : FilterStats) :
    (updateToolStats e cfg st).total = st.total ∧
    (updateToolStats e cfg st).filtered = st.filtered ∧
    (updateToolStats e cfg st).byCategory.thinking = st.byCategory.thinking ∧
    (updateToolStats e cfg st).byCategory.subAgentCalls = st.byCategory.subAgentCalls ∧
    (updateToolStats e cfg st).byCategory.subAgentResponses =
      st.byCategory.subAgentResponses ∧
    (updateToolStats e cfg st).byCategory.tools =
      st.byCategory.tools + (if toolStatHit cfg e = true then 1 else 0) ∧
    (updateToolStats e cfg st).byCategory.failed = st.byCategory.failed := by
  unfold updateToolStats toolStatHit
  by_cases h1 : isToolCall e none = true
  · cases h2 : getToolName e with
    | none => simp [h1, h2]
    | some t =>
      by_cases h3 : (t != "" && shouldFilterTool t cfg) = true <;> simp [h1, h2, h3]
  · simp [h1]

theorem updateFailedToolStats_proj (e : ConversationEntry) (cfg : FilterConfig)
    (st : FilterStats) :
    (updateFailedToolStats e cfg st).total = st.total ∧
    (updateFailedToolStats e cfg st).filtered = st.filtered ∧
    (updateFailedToolStats e cfg st).byCategory.thinking = st.byCategory.thinking ∧
    (updateFailedToolStats e cfg st).byCategory.subAgentCalls = st.byCategory.subAgentCalls ∧
    (updateFailedToolStats e cfg st).byCategory.subAgentResponses =
      st.byCategory.subAgentResponses ∧
    (updateFailedToolStats e cfg st).byCategory.tools = st.byCategory.tools ∧
    (updateFailedToolStats e cfg st).byCategory.failed =
      st.byCategory.failed + (if failedStatHit cfg e = true then 1 else 0) := by
  unfold updateFailedToolStats failedStatHit
  by_cases h1 : (isFailedToolResult e && optBoolTruthy cfg.tools.excludeFailed) = true <;>
    simp [h1]

theorem updateStatsEntry_proj (cfg : FilterConfig) (st : FilterStats)
    (e : ConversationEntry) :
    (updateStatsEntry cfg st e).total = st.total ∧
    (updateStatsEntry cfg st e).filtered = st.filtered ∧
    (updateStatsEntry cfg st e).byCategory.thinking =
      st.byCategory.thinking + (if thinkingStatHit cfg e = true then 1 else 0) ∧
    (updateStatsEntry cfg st e).byCategory.subAgentCalls =
      st.byCategory.subAgentCalls + (if subAgentCallStatHit cfg e = true then 1 else 0) ∧
    (updateStatsEntry cfg st e).byCategory.subAgentResponses =
      st.byCategory.subAgentResponses + (if subAgentResponseStatHit cfg e = true then 1 else 0) ∧
    (updateStatsEntry cfg st e).byCategory.tools =
      st.byCategory.tools + (if toolStatHit cfg e = true then 1 else 0) ∧
    (updateStatsEntry cfg st e).byCategory.failed =
      st.byCategory.failed + (if failedStatHit cfg e = true then 1 else 0) := by
  obtain ⟨a1, a2, a3, a4, a5, a6, a7⟩ := updateThinkingStats_proj e cfg st
  obtain ⟨b1, b2, b3, b4, b5, b6, b7⟩ :=
    updateSubAgentStats_proj e cfg (updateThinkingStats e cfg st)
  obtain ⟨c1, c2, c3, c4, c5, c6, c7⟩ :=
    updateToolStats_proj e cfg (updateSubAgentStats e cfg (updateThinkingStats e cfg st))
  obtain ⟨d1, d2, d3, d4, d5, d6, d7⟩ :=
    updateFailedToolStats_proj e cfg
      (updateToolStats e cfg (updateSubAgentStats e cfg (updateThinkingStats e cfg st)))
  unfold updateStatsEntry
  refine ⟨?_, ?_, ?_, ?_, ?_, ?_, ?_⟩
  · rw [d1, c1, b1, a1]
  · rw [d2, c2, b2, a2]
  · rw [d3, c3, b3, a3]
  · rw [d4, c4, b4, a4]
  · rw [d5, c5, b5, a5]
  · rw [d6, c6, b6, a6]
  · rw [d7, c7, b7, a7]

theorem statsFoldl (cfg : FilterConfig) :
    ∀ (l : List ConversationEntry) (st : FilterStats),
      (l.foldl (updateStatsEntry cfg) st).total = st.total ∧
      (l.foldl (updateStatsEntry cfg) st).filtered = st.filtered ∧
      (l.foldl (updateStatsEntry cfg) st).byCategory.thinking =
        st.byCategory.thinking + l.countP (thinkingStatHit cfg) ∧
      (l.foldl (updateStatsEntry cfg) st).byCategory.subAgentCalls =
        st.byCategory.subAgentCalls + l.countP (subAgentCallStatHit cfg) ∧
      (l.foldl (updateStatsEntry cfg) st).byCategory.subAgentResponses =
        st.byCategory.subAgentResponses + l.countP (subAgentResponseStatHit cfg) ∧
      (l.foldl (updateStatsEntry cfg) st).byCategory.tools =
        st.byCategory.tools + l.countP (toolStatHit cfg) ∧
      (l.foldl (updateStatsEntry cfg) st).byCategory.failed =
        st.byCategory.failed + l.countP (failedStatHit cfg) := by
  intro l
  induction l with
  | nil => intro st; simp
  | cons e t ih =>
    intro st
    obtain ⟨i1, i2, i3, i4, i5, i6, i7⟩ := ih (updateStatsEntry cfg st e)
    obtain ⟨s1, s2, s3, s4, s5, s6, s7⟩ := updateStatsEntry_proj cfg st e
    rw [List.foldl_cons]
    refine ⟨by rw [i1, s1], by rw [i2, s2], ?_, ?_, ?_, ?_, ?_⟩
    · rw [i3, s3, List.countP_cons]; omega
    · rw [i4, s4, List.countP_cons]; omega
    · rw [i5, s5, List.countP_cons]; omega
    · rw [i6, s6, List.countP_cons]; omega
    · rw [i7, s7, List.countP_cons]; omega

/-- Counterexample to claim C9: with only thinking stripping enabled, a
single assistant event containing a thinking block survives filtering
(`filtered = 0`, one event in the output), yet the statistics walk
counts it under `byCategory.thinking` — a surviving event is counted,
and the category counts (summing to 1) do not sum to the filtered
count (0). -/
theorem getFilterStatistics_counts_survivor :
    (getFilterStatistics [mkEntry "9" "assistant" (.str "<thinking>x</thinking>hello")]
        cfgThinking).filtered = 0 ∧
    (getFilterStatistics [mkEntry "9" "assistant" (.str "<thinking>x</thinking>hello")]
        cfgThinking).byCategory.thinking = 1 ∧
    (getFilterStatistics [mkEntry "9" "assistant" (.str "<thinking>x</thinking>hello")]
        cfgThinking).byCategory.subAgentCalls = 0 ∧
    (getFilterStatistics [mkEntry "9" "assistant" (.str "<thinking>x</thinking>hello")]
        cfgThinking).byCategory.subAgentResponses = 0 ∧
    (getFilterStatistics [mkEntry "9" "assistant" (.str "<thinking>x</thinking>hello")]
        cfgThinking).byCategory.tools = 0 ∧
    (getFilterStatistics [mkEntry "9" "assistant" (.str "<thinking>x</thinking>hello")]
        cfgThinking).byCategory.failed = 0 ∧
    (filterConversation [mkEntry "9" "assistant" (.str "<thinking>x</thinking>hello")]
        cfgThinking).length = 1 := by
  refine ⟨rfl, rfl, rfl, rfl, rfl, rfl, rfl⟩

/-- Claim C9 (amended): the statistics collector reports
`total = |entries|` and `filtered = |entries| − |filter output|`, and
attributes counts per category by an independent per-entry predicate
walk: each category counter equals the number of input entries
satisfying that category's classification predicate, independently of
whether the entry is removed; an entry may be counted in several
categories, and the counts need not sum to the filtered count. -/
theorem getFilterStatistics_spec (entries : List ConversationEntry) (cfg : FilterConfig) :
    (getFilterStatistics entries cfg).total = entries.length ∧
    (getFilterStatistics entries cfg).filtered =
      entries.length - (filterConversation entries cfg).length ∧
    (getFilterStatistics entries cfg).byCategory.thinking =
      entries.countP (thinkingStatHit cfg) ∧
    (getFilterStatistics entries cfg).byCategory.subAgentCalls =
      entries.countP (subAgentCallStatHit cfg) ∧
    (getFilterStatistics entries cfg).byCategory.subAgentResponses =
      entries.countP (subAgentResponseStatHit cfg) ∧
    (getFilterStatistics entries cfg).byCategory.tools =
      entries.countP (toolStatHit cfg) ∧
    (getFilterStatistics entries cfg).byCategory.failed =
      entries.countP (failedStatHit cfg) := by
  obtain ⟨f1, f2, f3, f4, f5, f6, f7⟩ :=
    statsFoldl cfg entries
      { total := entries.length
        filtered := entries.length - (filterConversation entries cfg).length
        byCategory := ⟨0, 0, 0, 0, 0⟩
        tokensSaved := 0 }
  unfold getFilterStatistics
  exact ⟨f1, f2, by rw [f3]; simp, by rw [f4]; simp, by rw [f5]; simp,
    by rw [f6]; simp, by rw [f7]; simp⟩

/-! ## Claim C1: pairing symmetry of tool exclusion -/

theorem getToolName_ne_empty {e : ConversationEntry} {t : String}
    (h : getToolName e = some t) : t ≠ "" := by
  have hty := getToolName_type h
  unfold getToolName at h
  rw [hty, if_neg (by simp)] at h
  cases hc : e.message.content with
  | str s => rw [hc] at h; cases h
  | arr items =>
    rw [hc] at h
    exact findToolName_ne_empty h

/-- Claim C1: for a conversation containing an assistant tool-invocation
entry immediately followed by the user tool-result entry answering it,
where the invoked tool is excluded by name or category and no other
filter axis marks either entry: with neither `excludeCallsOnly` nor
`excludeResultsOnly` set, both entries are removed from the output;
with only `excludeCallsOnly` set, the invocation is removed and the
result kept; with only `excludeResultsOnly` set, the invocation is kept
and the result removed. -/
theorem toolPairFiltering (cfg : FilterConfig) (pre post : List ConversationEntry)
    (call res : ConversationEntry) (t : String)
    (hname : getToolName call = some t)
    (hex : shouldFilterTool t cfg = true)
    (hres : isToolResult res = true)
    (hnodup : ((pre ++ call :: res :: post).map (fun x => x.uuid)).Nodup)
    (hcSub : cfg.subAgents.excludeCalls = false ∨ isSubAgentCall call = false)
    (hcRole : excludeByRoleHit cfg call = false)
    (hrSub : cfg.subAgents.excludeResponses = false ∨ isSubAgentResponse res = false)
    (hrFail : optBoolTruthy cfg.tools.excludeFailed = false ∨ isFailedToolResult res = false)
    (hrRole : excludeByRoleHit cfg res = false)
    (hkc : (pass2Entry cfg call).isSome = true)
    (hkr : (pass2Entry cfg res).isSome = true) :
    (optBoolTruthy cfg.tools.excludeCallsOnly = false →
      optBoolTruthy cfg.tools.excludeResultsOnly = false →
      call.uuid ∉ (filterConversation (pre ++ call :: res :: post) cfg).map (fun x => x.uuid) ∧
      res.uuid ∉ (filterConversation (pre ++ call :: res :: post) cfg).map (fun x => x.uuid)) ∧
    (optBoolTruthy cfg.tools.excludeCallsOnly = true →
      optBoolTruthy cfg.tools.excludeResultsOnly = false →
      call.uuid ∉ (filterConversation (pre ++ call :: res :: post) cfg).map (fun x => x.uuid) ∧
      res.uuid ∈ (filterConversation (pre ++ call :: res :: post) cfg).map (fun x => x.uuid)) ∧
    (optBoolTruthy cfg.tools.excludeCallsOnly = false →
      optBoolTruthy cfg.tools.excludeResultsOnly = true →
      call.uuid ∈ (filterConversation (pre ++ call :: res :: post) cfg).map (fun x => x.uuid) ∧
      res.uuid ∉ (filterConversation (pre ++ call :: res :: post) cfg).map (fun x => x.uuid)) := by
  have htype_call := getToolName_type hname
  have htc := isToolCall_of_getToolName hname
  have ht_ne : t ≠ "" := getToolName_ne_empty hname
  have htype_res := isToolResult_type hres
  rw [List.map_append, List.map_cons, List.map_cons, List.nodup_append,
    List.nodup_cons, List.nodup_cons] at hnodup
  obtain ⟨hnpre, ⟨hcall_notin, hres_notin, hnpost⟩, hdisj⟩ := hnodup
  have hcr : call.uuid ≠ res.uuid := fun h => hcall_notin (h ▸ List.mem_cons_self _ _)
  have hpost_call : ∀ e ∈ post, e.uuid ≠ call.uuid := by
    intro e he heq
    exact hcall_notin (List.mem_cons_of_mem _ (List.mem_map.mpr ⟨e, he, heq⟩))
  have hpost_res : ∀ e ∈ post, e.uuid ≠ res.uuid := by
    intro e he heq
    exact hres_notin (List.mem_map.mpr ⟨e, he, heq⟩)
  have hpre_call : ∀ e ∈ pre, e.uuid ≠ call.uuid := by
    intro e he heq
    exact hdisj (List.mem_map.mpr ⟨e, he, heq⟩) (List.mem_cons_self _ _)
  have hpre_res : ∀ e ∈ pre, e.uuid ≠ res.uuid := by
    intro e he heq
    exact hdisj (List.mem_map.mpr ⟨e, he, heq⟩)
      (List.mem_cons_of_mem _ (List.mem_cons_self _ _))
  have hA : call.uuid ∉ (pass1Aux cfg none pre (⟨[], []⟩ : Pass1State)).filteredUuids :=
    pass1Aux_fil_not_mem (by simp) hpre_call
  have hB : res.uuid ∉ (pass1Aux cfg none pre (⟨[], []⟩ : Pass1State)).filteredUuids :=
    pass1Aux_fil_not_mem (by simp) hpre_res
  have hsub1c : (cfg.subAgents.excludeCalls && isSubAgentCall call) = false := by
    rcases hcSub with h | h <;> simp [h]
  have hsub2c : (cfg.subAgents.excludeResponses && isSubAgentResponse call) = false := by
    rw [isSubAgentResponse_of_assistant htype_call]
    simp
  have htchit : toolCallMarkHit cfg call = !optBoolTruthy cfg.tools.excludeResultsOnly := by
    unfold toolCallMarkHit
    simp [htc, hname, hex]
  have hmc_call : ∀ m prev, markCond cfg m prev call =
      !optBoolTruthy cfg.tools.excludeResultsOnly := by
    intro m prev
    have htr : toolResultMarkHit cfg m prev call = false := by
      unfold toolResultMarkHit
      rw [isToolResult_of_assistant htype_call]
      rfl
    unfold markCond
    rw [hsub1c, hsub2c, htchit, htr, hcRole]
    simp
  have hsub1r : (cfg.subAgents.excludeCalls && isSubAgentCall res) = false := by
    unfold isSubAgentCall
    rw [isToolCall_of_user htype_res]
    simp
  have hsub2r : (cfg.subAgents.excludeResponses && isSubAgentResponse res) = false := by
    rcases hrSub with h | h <;> simp [h]
  have htcr : toolCallMarkHit cfg res = false := by
    unfold toolCallMarkHit
    rw [isToolCall_of_user htype_res]
    rfl
  have hflr : (optBoolTruthy cfg.tools.excludeFailed && isFailedToolResult res) = false := by
    rcases hrFail with h | h <;> simp [h]
  have hmc_res : ∀ m, markCond cfg ((call.uuid, t) :: m) (some call) res =
      !optBoolTruthy cfg.tools.excludeCallsOnly := by
    intro m
    have hpair : pairingHit ((call.uuid, t) :: m) (some call) cfg =
        !optBoolTruthy cfg.tools.excludeCallsOnly := by
      unfold pairingHit
      simp [List.lookup_cons, ht_ne, hex]
    have htrr : toolResultMarkHit cfg ((call.uuid, t) :: m) (some call) res =
        !optBoolTruthy cfg.tools.excludeCallsOnly := by
      unfold toolResultMarkHit
      rw [hres, hpair, hflr]
      simp
    unfold markCond
    rw [hsub1r, hsub2r, htcr, htrr, hrRole]
    simp
  have hmap_call : (pass1Entry cfg (lastOrPrev none pre) call
      (pass1Aux cfg none pre (⟨[], []⟩ : Pass1State))).toolCallMap =
      (call.uuid, t) ::
        (pass1Aux cfg none pre (⟨[], []⟩ : Pass1State)).toolCallMap := by
    rw [pass1Entry_map]
    simp [htc, hname]
  have hfc : call.uuid ∈ pass1 (pre ++ call :: res :: post) cfg ↔
      (!optBoolTruthy cfg.tools.excludeResultsOnly) = true := by
    unfold pass1
    rw [pass1Aux_append]
    show call.uuid ∈ (pass1Aux cfg (some res) post
      (pass1Entry cfg (some call) res
        (pass1Entry cfg (lastOrPrev none pre) call
          (pass1Aux cfg none pre (⟨[], []⟩ : Pass1State))))).filteredUuids ↔ _
    constructor
    · intro hmem
      by_contra hno
      refine (pass1Aux_fil_not_mem ?_ hpost_call) hmem
      rw [pass1Entry_fil]
      rintro (⟨heq, _⟩ | hmem2)
      · exact hcr heq
      · rw [pass1Entry_fil, hmc_call _ _] at hmem2
        rcases hmem2 with ⟨_, hm⟩ | hmem3
        · exact hno hm
        · exact hA hmem3
    · intro hm
      apply pass1Aux_fil_mono
      rw [pass1Entry_fil]
      right
      rw [pass1Entry_fil, hmc_call _ _]
      exact Or.inl ⟨rfl, hm⟩
  have hfr : res.uuid ∈ pass1 (pre ++ call :: res :: post) cfg ↔
      (!optBoolTruthy cfg.tools.excludeCallsOnly) = true := by
    unfold pass1
    rw [pass1Aux_append]
    show res.uuid ∈ (pass1Aux cfg (some res) post
      (pass1Entry cfg (some call) res
        (pass1Entry cfg (lastOrPrev none pre) call
          (pass1Aux cfg none pre (⟨[], []⟩ : Pass1State))))).filteredUuids ↔ _
    constructor
    · intro hmem
      by_contra hno
      refine (pass1Aux_fil_not_mem ?_ hpost_res) hmem
      rw [pass1Entry_fil, hmap_call, hmc_res _]
      rintro (⟨_, hm⟩ | hmem2)
      · exact hno hm
      · rw [pass1Entry_fil] at hmem2
        rcases hmem2 with ⟨heq, _⟩ | hmem3
        · exact hcr heq.symm
        · exact hB hmem3
    · intro hm
      apply pass1Aux_fil_mono
      rw [pass1Entry_fil, hmap_call, hmc_res _]
      exact Or.inl ⟨rfl, hm⟩
  have hcall_mem : call ∈ pre ++ call :: res :: post :=
    List.mem_append.mpr (Or.inr (List.mem_cons_self _ _))
  have hres_mem : res ∈ pre ++ call :: res :: post :=
    List.mem_append.mpr (Or.inr (List.mem_cons_of_mem _ (List.mem_cons_self _ _)))
  refine ⟨?_, ?_, ?_⟩
  · intro hco hro
    exact ⟨uuid_not_mem_output (hfc.mpr (by rw [hro]; rfl)),
      uuid_not_mem_output (hfr.mpr (by rw [hco]; rfl))⟩
  · intro hco hro
    refine ⟨uuid_not_mem_output (hfc.mpr (by rw [hro]; rfl)), ?_⟩
    refine uuid_mem_output hres_mem ?_ hkr
    intro hmem
    have hx := hfr.mp hmem
    rw [hco] at hx
    simp at hx
  · intro hco hro
    refine ⟨?_, uuid_not_mem_output (hfr.mpr (by rw [hco]; rfl))⟩
    refine uuid_mem_output hcall_mem ?_ hkc
    intro hmem
    have hx := hfc.mp hmem
    rw [hro] at hx
    simp at hx

/-- Witness for claim C1 at a concrete input: an `Edit` invocation/result
pair with `excludeSpecific = ["Edit"]` and neither pairing flag set —
both entries are removed. -/
theorem toolPairFiltering_witness :
    editCallEntry.uuid ∉
      (filterConversation [editCallEntry, editResultEntry] cfgEditTool).map
        (fun x => x.uuid) ∧
    editResultEntry.uuid ∉
      (filterConversation [editCallEntry, editResultEntry] cfgEditTool).map
        (fun x => x.uuid) :=
  (toolPairFiltering cfgEditTool [] [] editCallEntry editResultEntry "Edit"
    (by decide) (by decide) (by decide) (by decide)
    (Or.inl rfl) rfl (Or.inl rfl) (Or.inl rfl) rfl (by decide) (by decide)).1 rfl rfl

/-! ## Claim C3: idempotence of filtering -/

/-- Counterexample to claim C3: stripping thinking blocks is not
idempotent.  The first pass removes the inner block of
`<thin<thinking>z</thinking>king>abc</thinking>`, which splices the
surrounding text into a fresh `<thinking>abc</thinking>` block (the
global regex replace does not rescan its own output); the second
application then removes that block, changing the payload again. -/
theorem filterConversation_not_idempotent :
    filterConversation
      (filterConversation
        [mkEntry "3" "assistant" (.str "<thin<thinking>z</thinking>king>abc</thinking>")]
        cfgThinking) cfgThinking ≠
    filterConversation
      [mkEntry "3" "assistant" (.str "<thin<thinking>z</thinking>king>abc</thinking>")]
      cfgThinking := by
  decide

theorem processContentItem_preserves (item : MessageContentItem) (f : String → String) :
    (processContentItem item f).type = item.type ∧
    (processContentItem item f).name = item.name ∧
    (processContentItem item f).is_error = item.is_error ∧
    ((processContentItem item f).content = item.content ∨
      (processContentItem item f).content = item.content.map f) := by
  obtain ⟨ty, tx, ct, nm, idf, inp, tid, ie⟩ := item
  unfold processContentItem
  dsimp only
  split_ifs <;> simp

theorem filterMap_id_of_forall {α : Type} (l : List α) (g : α → Option α)
    (h : ∀ a ∈ l, g a = some a) : l.filterMap g = l := by
  induction l with
  | nil => rfl
  | cons a t ih =>
    rw [List.filterMap_cons, h a (List.mem_cons_self a t)]
    rw [ih (fun x hx => h x (List.mem_cons_of_mem a hx))]

theorem inputTrim_idem (inp : Option (List (String × InputVal))) :
    (inp.map (List.map (fun kv => match kv.2 with
        | InputVal.str v => (kv.1, InputVal.str (jsTrim v))
        | InputVal.other => kv))).map (List.map (fun kv => match kv.2 with
        | InputVal.str v => (kv.1, InputVal.str (jsTrim v))
        | InputVal.other => kv)) =
      inp.map (List.map (fun kv => match kv.2 with
        | InputVal.str v => (kv.1, InputVal.str (jsTrim v))
        | InputVal.other => kv)) := by
  cases inp with
  | none => rfl
  | some kvs =>
    show some _ = some _
    congr 1
    rw [List.map_map]
    apply List.map_congr_left
    intro kv _
    obtain ⟨k, v⟩ := kv
    cases v with
    | str s =>
      show (k, InputVal.str (jsTrim (jsTrim s))) = (k, InputVal.str (jsTrim s))
      rw [jsTrim_idem]
    | other => rfl

theorem contentTrim_idem (ct : Option String) :
    (ct.map jsTrim).map jsTrim = ct.map jsTrim := by
  cases ct with
  | none => rfl
  | some c =>
    show some (jsTrim (jsTrim c)) = some (jsTrim c)
    rw [jsTrim_idem]

theorem processContentItem_trim_idem (item : MessageContentItem)
    (hsafe : itemTrimSafe item = true) :
    processContentItem (processContentItem item jsTrim) jsTrim =
      processContentItem item jsTrim := by
  obtain ⟨ty, tx, ct, nm, idf, inp, tid, ie⟩ := item
  by_cases htx : optStrTruthy tx = true
  · cases tx with
    | none => simp [optStrTruthy] at htx
    | some u =>
      have hu : (u != "") = true := by simpa [optStrTruthy] using htx
      have h1 : processContentItem ⟨ty, some u, ct, nm, idf, inp, tid, ie⟩ jsTrim =
          ⟨ty, some (jsTrim u), ct, nm, idf, inp, tid, ie⟩ := by
        unfold processContentItem
        rw [if_pos htx]
        rfl
      rw [h1]
      by_cases hju : (jsTrim u != "") = true
      · have h2 : optStrTruthy (some (jsTrim u)) = true := by
          simpa [optStrTruthy] using hju
        unfold processContentItem
        rw [if_pos h2]
        show (⟨ty, some (jsTrim (jsTrim u)), ct, nm, idf, inp, tid, ie⟩ :
          MessageContentItem) = _
        rw [jsTrim_idem]
      · have hjeq : (jsTrim u == "") = true := by simpa using hju
        have hcond : (u != "" && jsTrim u == "") = true := by rw [hu, hjeq]; rfl
        unfold itemTrimSafe at hsafe
        dsimp only at hsafe
        rw [if_pos hcond] at hsafe
        rw [Bool.and_eq_true] at hsafe
        obtain ⟨hn1, hn2⟩ := hsafe
        have hc1 : optStrTruthy (some (jsTrim u)) = false := by
          simpa [optStrTruthy] using hju
        have hc2 : (ty == "tool_use" && inp.isSome) = false := by
          cases hb : (ty == "tool_use" && inp.isSome)
          · rfl
          · rw [hb] at hn1; simp at hn1
        have hc3 : (ty == "tool_result" && ct.isSome) = false := by
          cases hb : (ty == "tool_result" && ct.isSome)
          · rfl
          · rw [hb] at hn2; simp at hn2
        unfold processContentItem
        rw [if_neg (by simp [hc1]), if_neg (by simp [hc2]), if_neg (by simp [hc3])]
  · have hfx : optStrTruthy tx = false := by simpa using htx
    by_cases h2 : (ty == "tool_use" && inp.isSome) = true
    · have h1 : processContentItem ⟨ty, tx, ct, nm, idf, inp, tid, ie⟩ jsTrim =
          ⟨ty, tx, ct, nm, idf,
            inp.map (List.map (fun kv => match kv.2 with
              | InputVal.str v => (kv.1, InputVal.str (jsTrim v))
              | InputVal.other => kv)), tid, ie⟩ := by
        unfold processContentItem
        rw [if_neg (by simp [hfx]), if_pos h2]
      rw [h1]
      have h2m : (ty == "tool_use" &&
          (inp.map (List.map (fun kv => match kv.2 with
            | InputVal.str v => (kv.1, InputVal.str (jsTrim v))
            | InputVal.other => kv))).isSome) = true := by
        simpa [Option.isSome_map] using h2
      unfold processContentItem
      rw [if_neg (by simp [hfx]), if_pos h2m]
      show (⟨ty, tx, ct, nm, idf,
        (inp.map (List.map (fun kv => match kv.2 with
          | InputVal.str v => (kv.1, InputVal.str (jsTrim v))
          | InputVal.other => kv))).map (List.map (fun kv => match kv.2 with
          | InputVal.str v => (kv.1, InputVal.str (jsTrim v))
          | InputVal.other => kv)), tid, ie⟩ : MessageContentItem) = _
      rw [inputTrim_idem]
    · by_cases h3 : (ty == "tool_result" && ct.isSome) = true
      · have h1 : processContentItem ⟨ty, tx, ct, nm, idf, inp, tid, ie⟩ jsTrim =
            ⟨ty, tx, ct.map jsTrim, nm, idf, inp, tid, ie⟩ := by
          unfold processContentItem
          rw [if_neg (by simp [hfx]), if_neg h2, if_pos h3]
        rw [h1]
        have h3m : (ty == "tool_result" && (ct.map jsTrim).isSome) = true := by
          simpa [Option.isSome_map] using h3
        unfold processContentItem
        rw [if_neg (by simp [hfx]), if_neg h2, if_pos h3m]
        show (⟨ty, tx, (ct.map jsTrim).map jsTrim, nm, idf, inp, tid, ie⟩ :
          MessageContentItem) = _
        rw [contentTrim_idem]
      · have h1 : processContentItem ⟨ty, tx, ct, nm, idf, inp, tid, ie⟩ jsTrim =
            ⟨ty, tx, ct, nm, idf, inp, tid, ie⟩ := by
          unfold processContentItem
          rw [if_neg (by simp [hfx]), if_neg h2, if_neg h3]
        rw [h1, h1]

theorem filterContentPatterns_trim_idem {cfg : FilterConfig}
    (hthink : cfg.content.excludeThinking = false)
    (hrem : cfg.content.excludeSystemReminders = false)
    (hpat : cfg.content.customPatterns = none)
    (hlen : cfg.messages.maxLength = none) (c : MessageContent)
    (hsafe : ∀ items, c = .arr items → ∀ item ∈ items, itemTrimSafe item = true) :
    filterContentPatterns (filterContentPatterns c cfg) cfg =
      filterContentPatterns c cfg := by
  have hfun : (fun s => processString cfg s) = jsTrim :=
    funext (processString_eq_trim hthink hrem hpat hlen)
  cases c with
  | str s =>
    rw [filterContentPatterns_str]
    by_cases h0 : (s == "") = true
    · rw [if_pos h0, filterContentPatterns_str, if_pos h0]
    · rw [if_neg h0, processString_eq_trim hthink hrem hpat hlen, filterContentPatterns_str]
      by_cases h1 : (jsTrim s == "") = true
      · rw [if_pos h1]
      · rw [if_neg h1, processString_eq_trim hthink hrem hpat hlen, jsTrim_idem]
  | arr items =>
    rw [filterContentPatterns_arr, processArrayContent_never_drops, hfun,
      filterContentPatterns_arr, processArrayContent_never_drops, hfun]
    congr 1
    rw [List.map_map]
    apply List.map_congr_left
    intro item hmem
    exact processContentItem_trim_idem item (hsafe items rfl item hmem)

theorem isToolCall_pass2 {cfg : FilterConfig} {e e' : ConversationEntry}
    (hp : pass2Entry cfg e = some e') (n : Option String) :
    isToolCall e' n = isToolCall e n := by
  obtain rfl := pass2Entry_some hp
  clear hp
  obtain ⟨pu, uu, ts, ty, msg, tur⟩ := e
  obtain ⟨role, content⟩ := msg
  unfold isToolCall
  dsimp only
  cases content with
  | str s =>
    rw [filterContentPatterns_str]
    by_cases h0 : (s == "") = true
    · rw [if_pos h0]
    · rw [if_neg h0]
  | arr items =>
    rw [filterContentPatterns_arr, processArrayContent_never_drops]
    by_cases hty : (ty != "assistant") = true
    · rw [if_pos hty, if_pos hty]
    · rw [if_neg hty, if_neg hty]
      dsimp only
      induction items with
      | nil => rfl
      | cons item rest ih =>
        rw [List.map_cons, List.any_cons, List.any_cons, ih]
        obtain ⟨h1, h2, _, _⟩ := processContentItem_preserves item
          (fun s => processString cfg s)
        rw [h1]
        cases n with
        | none => rfl
        | some nm => rw [h2]

theorem isToolResult_pass2 {cfg : FilterConfig} {e e' : ConversationEntry}
    (hp : pass2Entry cfg e = some e') :
    isToolResult e' = isToolResult e := by
  obtain rfl := pass2Entry_some hp
  clear hp
  obtain ⟨pu, uu, ts, ty, msg, tur⟩ := e
  obtain ⟨role, content⟩ := msg
  unfold isToolResult
  dsimp only
  cases content with
  | str s =>
    rw [filterContentPatterns_str]
    by_cases h0 : (s == "") = true
    · rw [if_pos h0]
    · rw [if_neg h0]
  | arr items =>
    rw [filterContentPatterns_arr, processArrayContent_never_drops]
    by_cases hty : (ty != "user") = true
    · rw [if_pos hty, if_pos hty]
    · rw [if_neg hty, if_neg hty]
      dsimp only
      induction items with
      | nil => rfl
      | cons item rest ih =>
        rw [List.map_cons, List.any_cons, List.any_cons, ih]
        obtain ⟨h1, _, _, _⟩ := processContentItem_preserves item
          (fun s => processString cfg s)
        rw [h1]

theorem isSubAgentResponse_pass2 {cfg : FilterConfig} {e e' : ConversationEntry}
    (hp : pass2Entry cfg e = some e') :
    isSubAgentResponse e' = isSubAgentResponse e := by
  obtain ⟨_, _, _, hty, _, htur⟩ := pass2Entry_fields hp
  rw [isSubAgentResponse_eq, isSubAgentResponse_eq, hty, htur]

theorem excludeByRoleHit_pass2 {cfg : FilterConfig} {e e' : ConversationEntry}
    (hp : pass2Entry cfg e = some e') :
    excludeByRoleHit cfg e' = excludeByRoleHit cfg e := by
  have hty := (pass2Entry_fields hp).2.2.2.1
  unfold excludeByRoleHit
  rw [hty]

theorem isFailedToolResult_pass2_rev {cfg : FilterConfig}
    (hthink : cfg.content.excludeThinking = false)
    (hrem : cfg.content.excludeSystemReminders = false)
    (hpat : cfg.content.customPatterns = none)
    (hlen : cfg.messages.maxLength = none) {e e' : ConversationEntry}
    (hp : pass2Entry cfg e = some e') (hf : isFailedToolResult e' = true) :
    isFailedToolResult e = true := by
  have hfun : (fun s => processString cfg s) = jsTrim :=
    funext (processString_eq_trim hthink hrem hpat hlen)
  have hrw := isToolResult_pass2 hp
  obtain rfl := pass2Entry_some hp
  clear hp
  obtain ⟨pu, uu, ts, ty, msg, tur⟩ := e
  obtain ⟨role, content⟩ := msg
  unfold isFailedToolResult at hf ⊢
  dsimp only at hrw hf ⊢
  rw [hrw] at hf
  by_cases hr : isToolResult ⟨pu, uu, ts, ty, ⟨role, content⟩, tur⟩ = true
  · rw [hr] at hf ⊢
    rw [if_neg (by simp)] at hf
    rw [if_neg (by simp)]
    cases content with
    | str s =>
      rw [filterContentPatterns_str] at hf
      by_cases h0 : (s == "") = true
      · rw [if_pos h0] at hf
        exact hf
      · rw [if_neg h0] at hf
        exact hf
    | arr items =>
      rw [filterContentPatterns_arr, processArrayContent_never_drops, hfun] at hf
      replace hf := List.any_eq_true.mp hf
      refine List.any_eq_true.mpr ?_
      obtain ⟨item', hmem', hcond⟩ := hf
      obtain ⟨item, hmem, rfl⟩ := List.mem_map.mp hmem'
      refine ⟨item, hmem, ?_⟩
      obtain ⟨h1, _, h3, h4⟩ := processContentItem_preserves item jsTrim
      rw [h1, h3] at hcond
      by_cases hty2 : (item.type == "tool_result") = true
      · rw [if_pos hty2] at hcond
        rw [if_pos hty2]
        rw [Bool.or_eq_true] at hcond ⊢
        rcases hcond with herr | hcnt
        · exact Or.inl herr
        · refine Or.inr ?_
          rcases h4 with heq | heq
          · rw [heq] at hcnt
            exact hcnt
          · rw [heq] at hcnt
            cases hct : item.content with
            | none => rw [hct] at hcnt; simp at hcnt
            | some c =>
              rw [hct] at hcnt
              have hcnt' : containsSubstr (jsTrim c) "[Request interrupted" = true := hcnt
              exact containsSubstr_of_trim hcnt'
      · rw [if_neg hty2] at hcond
        cases hcond
  · have hr' : isToolResult ⟨pu, uu, ts, ty, ⟨role, content⟩, tur⟩ = false := by
      simpa using hr
    rw [hr'] at hf
    simp at hf

theorem pass2Entry_cond_false {cfg : FilterConfig} {e e' : ConversationEntry}
    (h : pass2Entry cfg e = some e') :
    (optBoolTruthy cfg.messages.excludeEmpty &&
      (match filterContentPatterns e.message.content cfg with
       | .str s => s == ""
       | .arr items => items.isEmpty)) = false := by
  simp only [pass2Entry] at h
  split at h
  · cases h
  · rename_i hc
    simpa using hc

theorem pass2Entry_idem {cfg : FilterConfig}
    (hthink : cfg.content.excludeThinking = false)
    (hrem : cfg.content.excludeSystemReminders = false)
    (hpat : cfg.content.customPatterns = none)
    (hlen : cfg.messages.maxLength = none) {e e' : ConversationEntry}
    (hsafe : entryTrimSafe e = true) (hp : pass2Entry cfg e = some e') :
    pass2Entry cfg e' = some e' := by
  have hcond := pass2Entry_cond_false hp
  have hfc : filterContentPatterns (filterContentPatterns e.message.content cfg) cfg =
      filterContentPatterns e.message.content cfg := by
    refine filterContentPatterns_trim_idem hthink hrem hpat hlen _ ?_
    intro items hc item hmem
    unfold entryTrimSafe at hsafe
    rw [hc] at hsafe
    exact List.all_eq_true.mp hsafe item hmem
  obtain rfl := pass2Entry_some hp
  clear hp
  obtain ⟨pu, uu, ts, ty, msg, tur⟩ := e
  obtain ⟨role, content⟩ := msg
  simp only [pass2Entry]
  dsimp only at hcond hfc
  rw [hfc, hcond]
  rfl

theorem entryMarkP_pass2_rev {cfg : FilterConfig}
    (hthink : cfg.content.excludeThinking = false)
    (hrem : cfg.content.excludeSystemReminders = false)
    (hpat : cfg.content.customPatterns = none)
    (hlen : cfg.messages.maxLength = none) {e e' : ConversationEntry}
    (hp : pass2Entry cfg e = some e') (hm : entryMarkP cfg e' = true) :
    entryMarkP cfg e = true := by
  have h1 : isSubAgentCall e' = isSubAgentCall e := isToolCall_pass2 hp (some "Task")
  have h2 := isSubAgentResponse_pass2 hp
  have h4 := excludeByRoleHit_pass2 hp
  unfold entryMarkP at hm ⊢
  rw [h1, h2, h4] at hm
  by_cases hfe : isFailedToolResult e' = true
  · have hfeE := isFailedToolResult_pass2_rev hthink hrem hpat hlen hp hfe
    rw [hfeE]
    rw [hfe] at hm
    exact hm
  · have hfe' : isFailedToolResult e' = false := by simpa using hfe
    rw [hfe'] at hm
    simp only [Bool.and_false, Bool.or_false, Bool.false_or] at hm
    simp only [Bool.or_eq_true] at hm ⊢
    tauto

/-- Claim C3 (amended): applying the filter a second time is a no-op on
the trim-and-drop configuration family.  Whenever no content-stripping
option is active (`excludeThinking` and `excludeSystemReminders` off, no
custom patterns, no `maxLength`), no tool name is excluded (both
`excludeSpecific` and `excludeCategories` absent or empty), and every
array-content item of the input is trim-safe (a non-empty `text` that
trims to the empty string cannot re-route the item into the
`tool_use`/`tool_result` rewriting branches), then
`filterConversation (filterConversation entries cfg) cfg =
filterConversation entries cfg`: the unconditional `trim` is idempotent,
surviving entries are never re-marked, and the emptiness drop cannot
fire a second time.  Without these restrictions idempotence fails (see
the nested-thinking counterexample). -/
theorem filterConversation_idempotent {cfg : FilterConfig}
    (hthink : cfg.content.excludeThinking = false)
    (hrem : cfg.content.excludeSystemReminders = false)
    (hpat : cfg.content.customPatterns = none)
    (hlen : cfg.messages.maxLength = none)
    (hspec : cfg.tools.excludeSpecific = none ∨ cfg.tools.excludeSpecific = some [])
    (hcat : cfg.tools.excludeCategories = none ∨ cfg.tools.excludeCategories = some [])
    (entries : List ConversationEntry)
    (hsafe : ∀ e ∈ entries, entryTrimSafe e = true) :
    filterConversation (filterConversation entries cfg) cfg =
      filterConversation entries cfg := by
  have hP := shouldFilterTool_off hspec hcat
  have hmark : ∀ e' ∈ filterConversation entries cfg, entryMarkP cfg e' = false := by
    intro e' h
    obtain ⟨e, he, hcontain, hp⟩ := mem_filterConversation h
    have hme : entryMarkP cfg e = false := by
      cases hb : entryMarkP cfg e with
      | false => rfl
      | true =>
        have hmem : e.uuid ∈ pass1 entries cfg :=
          (pass1_pointwise hP entries e.uuid).mpr ⟨e, he, rfl, hb⟩
        rw [← contains_iff_mem, hcontain] at hmem
        cases hmem
    cases hb : entryMarkP cfg e' with
    | false => rfl
    | true =>
      have hx := entryMarkP_pass2_rev hthink hrem hpat hlen hp hb
      rw [hme] at hx
      cases hx
  have hkeep : ∀ e' ∈ filterConversation entries cfg, pass2Entry cfg e' = some e' := by
    intro e' h
    obtain ⟨e, he, _, hp⟩ := mem_filterConversation h
    exact pass2Entry_idem hthink hrem hpat hlen (hsafe e he) hp
  rw [filterConversation_eq_filterMap (filterConversation entries cfg) cfg]
  refine filterMap_id_of_forall _ _ ?_
  intro e' h
  have hc : (pass1 (filterConversation entries cfg) cfg).contains e'.uuid = false := by
    cases hb : (pass1 (filterConversation entries cfg) cfg).contains e'.uuid with
    | false => rfl
    | true =>
      have hmem := (contains_iff_mem _ _).mp hb
      obtain ⟨e'', he'', _, hmk⟩ := (pass1_pointwise hP _ e'.uuid).mp hmem
      rw [hmark e'' he''] at hmk
      cases hmk
  rw [if_neg (by rw [hc]; simp)]
  exact hkeep e' h

/-- Witness for the amended claim C3 at a concrete input: with every
filtering axis off, re-filtering the already-filtered singleton
conversation changes nothing. -/
theorem filterConversation_idempotent_witness :
    filterConversation
        (filterConversation [mkEntry "1" "user" (.str " hi ")] cfgBase) cfgBase =
      filterConversation [mkEntry "1" "user" (.str " hi ")] cfgBase :=
  filterConversation_idempotent rfl rfl rfl rfl (Or.inl rfl) (Or.inl rfl)
    [mkEntry "1" "user" (.str " hi ")] (by decide)
